import Mathlib

/-!
# A verification development for `app/server.go`

A shallow embedding of the single-request HTTP server: the request parser
(`parseMessage`, `parseHeaders`), the router (`processRequest`,
`handleGetRequest`, `handlePostRequest`, `handleEchoRequest`) and the response
writer (`writeResponse`), over an explicit connection and file store.

Go strings and byte slices are sequences of bytes; both are embedded as
`List Char`, one list element per byte, so `len` is `List.length`.

A handler ends in one of three ways, kept apart in `Outcome`: it returns, it
calls `logErrorAndExit` (the call site is recorded), or it panics on an index
or a slice bound out of range. The state is the list of slices passed to `conn.Write` and the
file store. What goes to standard output (`fmt.Println`) and the deferred
`conn.Close` are left out of the state; the accept loop of `main` is not
embedded.
-/

namespace HttpServer

/-- A Go `string` or `[]byte`: one element per byte. -/
abbrev Str := List Char

/-! ## The `strings` and `strconv` functions the server calls -/

/-- Go `strings.Index(s, sep)`: the index of the first occurrence of `sep` in
`s`; `none` stands for the result `-1`. -/
def index : Str → Str → Option Nat
  | [], sep => if sep.isPrefixOf [] then some 0 else none
  | c :: t, sep =>
    if sep.isPrefixOf (c :: t) then some 0 else (index t sep).map (· + 1)

/-- Go `strings.Contains(s, substr)`, which is `Index(s, substr) >= 0`. -/
def contains (s substr : Str) : Bool := (index s substr).isSome

/-- The loop of Go `strings.genSplit` (with `sepSave = 0`) for a non-empty
separator: at most `k` times, cut `s` at the first occurrence of `sep` and go on
after it; the loop breaks when `Index` finds nothing, and what is left of `s` is
the last piece. -/
def genSplitLoop (sep : Str) : Nat → Str → List Str
  | 0, s => [s]
  | k + 1, s =>
    match index s sep with
    | none => [s]
    | some m => s.take m :: genSplitLoop sep k (s.drop (m + sep.length))

/-- Go `strings.SplitN(s, sep, n)` for a non-empty `sep` and `n ≥ 0`: `nil` when
`n = 0`, otherwise `n` is clamped to `len(s) + 1` and the loop runs `n - 1`
times. -/
def splitN (s sep : Str) (n : Nat) : List Str :=
  if n = 0 then [] else genSplitLoop sep (min n (s.length + 1) - 1) s

/-- Go `strings.Split(s, sep)` for a non-empty `sep` (every call site of the
server passes a non-empty literal). `genSplit` sets `n = Count(s, sep) + 1`,
clamps it to `len(s) + 1` and runs the loop `n - 1` times; the loop also breaks
at the first failed `Index`, which happens after `Count(s, sep) ≤ len(s)` cuts,
so the bound `len(s)` yields the same pieces. -/
def split (s sep : Str) : List Str := genSplitLoop sep s.length s

/-- Go `strings.Join(parts, sep)`. -/
def join (sep : Str) : List Str → Str
  | [] => []
  | [p] => p
  | p :: q :: rest => p ++ sep ++ join sep (q :: rest)

/-- Go `strconv.Itoa` on a length (a non-negative `int`): the decimal digits. -/
def itoa (n : Nat) : Str := Nat.toDigits 10 n

/-! ## Literals of the source -/

/-- The line break `"\r\n"`. -/
def crlf : Str := "\r\n".toList

/-- The blank-line separator `"\r\n\r\n"` between header block and body. -/
def crlfcrlf : Str := "\r\n\r\n".toList

/-! ## State: connection, file store, environment -/

/-- The result of `os.Stat`: no error, an error for which `os.IsNotExist` holds,
or any other error. -/
inductive StatResult where
  | ok
  | notExist
  | otherError
  deriving DecidableEq, Repr

/-- What the process is given from outside: the command line `os.Args`, which
paths `os.Create` / `os.WriteFile` can write, the compressor behind
`gzip.NewWriter`, and the answer of `os.Stat` for a path. -/
structure Env where
  args : List Str
  writable : Str → Bool
  gzip : Str → Str
  stat : Str → StatResult

/-- The mutable world of one connection handler: the byte slices passed to
`conn.Write`, in order, and the file store as a map from path to contents (an
association list, first match wins). -/
structure World where
  conn : List Str
  files : List (Str × Str)
  deriving DecidableEq, Repr

/-- All bytes written to the connection so far. -/
def World.wire (w : World) : Str := w.conn.flatten

/-- The call sites of `logErrorAndExit`. -/
inductive ExitSite where
  | readError
  | noHeader
  | requestLine
  | header
  | method
  | echoParts
  deriving DecidableEq, Repr

/-- The message each call site passes to `logErrorAndExit`. -/
def ExitSite.message : ExitSite → String
  | .readError => "Error reading from connection"
  | .noHeader => "No header found"
  | .requestLine => "Invalid request"
  | .header => "Invalid header"
  | .method => "Invalid method"
  | .echoParts => "Invalid request"

/-- How a handler ends: it returns, it calls `logErrorAndExit` (`os.Exit(1)`),
or it panics on an index or a slice bound out of range. -/
inductive Outcome where
  | returned
  | exited (site : ExitSite)
  | panicked
  deriving DecidableEq, Repr

/-- Outcome of a handler together with the world it leaves behind. -/
abbrev Result := Outcome × World

/-- Go `conn.Write(b)`. -/
def connWrite (w : World) (b : Str) : World := { w with conn := w.conn ++ [b] }

/-- Store `data` under `path` in the file map, replacing an older entry. -/
def putFile (files : List (Str × Str)) (path data : Str) : List (Str × Str) :=
  (path, data) :: files.filter (fun e => e.1 ≠ path)

/-- Go `os.Create(path)` with the error ignored: creates or truncates the file
when the path can be written, and does nothing otherwise. -/
def osCreate (env : Env) (w : World) (path : Str) : World :=
  if env.writable path then { w with files := putFile w.files path [] } else w

/-- Go `os.WriteFile(path, data, 0644)` with the error ignored. -/
def osWriteFile (env : Env) (w : World) (path data : Str) : World :=
  if env.writable path then { w with files := putFile w.files path data } else w

/-- Go `os.ReadFile(path)`: `none` stands for a non-nil error. -/
def osReadFile (w : World) (path : Str) : Option Str := w.files.lookup path

/-! ## Header map -/

/-- A Go `map[string]string`, kept as an association list without duplicate
keys. -/
abbrev HeaderMap := List (Str × Str)

/-- Go `m[k]`: the stored value, or the empty string for a missing key. -/
def HeaderMap.get (m : HeaderMap) (k : Str) : Str := (m.lookup k).getD []

/-- Go `m[k] = v`. -/
def HeaderMap.set (m : HeaderMap) (k v : Str) : HeaderMap :=
  (k, v) :: m.filter (fun e => e.1 ≠ k)

/-! ## The functions of `server.go` -/

/-- The source's `exists` (a reserved word here, hence the longer name):
`err == nil || !os.IsNotExist(err)` on the result of `os.Stat`. -/
def existsPath (env : Env) (path : Str) : Bool :=
  env.stat path = .ok || !(env.stat path = .notExist)

/-- `writeResponse`: one write of status line and headers, then one write of the
body unless the body is `nil` (`none`). -/
def writeResponse (w : World) (status contentType : Str) (body : Option Str) : World :=
  let response := "HTTP/1.1 ".toList ++ status ++ "\r\nContent-Type: ".toList ++ contentType
    ++ "\r\nContent-Length: ".toList ++ itoa (body.getD []).length ++ "\r\n\r\n".toList
  let w1 := connWrite w response
  match body with
  | some b => connWrite w1 b
  | none => w1

/-- `parseHeaders`: `none` stands for `logErrorAndExit("Invalid header", nil)`. -/
def parseHeaders : List Str → HeaderMap → Option HeaderMap
  | [], headerMap => some headerMap
  | part :: rest, headerMap =>
    let keyValue := split part ": ".toList
    if keyValue.length ≠ 2 then none
    else
      match keyValue[0]?, keyValue[1]? with
      | some k, some v => parseHeaders rest (headerMap.set k v)
      | _, _ => none

/-- How `parseMessage` ends: with the header lines and the body, or in one of
its two panics, the slice bounds of `buf[:n]` or the index `parts[1]`. -/
inductive ParseResult where
  | parsed (headerParts : List Str) (body : Str)
  | sliceOutOfRange
  | indexOutOfRange
  deriving DecidableEq, Repr

/-- `parseMessage`. The buffer is a slice whose capacity is its length, as the
one `handleConnection` makes: `buf[:n]` panics on the slice bounds when `n` is
beyond the buffer, and `parts[1]` panics on the index when `SplitN` found no
blank line. -/
def parseMessage (buf : Str) (n : Nat) : ParseResult :=
  if buf.length < n then .sliceOutOfRange
  else
    let receivedData := buf.take n
    let parts := splitN receivedData crlfcrlf 2
    match parts[0]?, parts[1]? with
    | some header, some body => .parsed (split header crlf) body
    | _, _ => .indexOutOfRange

/-- `handleEchoRequest`. -/
def handleEchoRequest (env : Env) (w : World) (parts : List Str) (headerMap : HeaderMap) :
    Result :=
  if parts.length ≠ 3 then (.exited .echoParts, w)
  else
    match parts[2]? with
    | none => (.panicked, w)
    | some payload =>
      let response := "HTTP/1.1 200 OK\r\n".toList
      if contains (headerMap.get "Accept-Encoding".toList) "gzip".toList then
        let response := response ++ "Content-Encoding: gzip\r\n".toList
        let b := env.gzip payload
        let response := response ++ "Content-Type: text/plain\r\nContent-Length: ".toList
          ++ itoa b.length ++ "\r\n\r\n".toList
        (.returned, connWrite w (response ++ b))
      else
        let response := response ++ "Content-Type: text/plain\r\nContent-Length: ".toList
          ++ itoa payload.length ++ "\r\n\r\n".toList ++ payload
        (.returned, connWrite w response)

/-- `handleGetRequest`. -/
def handleGetRequest (env : Env) (w : World) (path : Str) (headerMap : HeaderMap) : Result :=
  let pathParts := split path "/".toList
  match pathParts[1]? with
  | none => (.panicked, w)
  | some seg =>
    if seg = "user-agent".toList then
      let userAgent := headerMap.get "User-Agent".toList
      (.returned, writeResponse w "200 OK".toList "text/plain".toList (some userAgent))
    else if seg = "echo".toList then
      handleEchoRequest env w pathParts headerMap
    else if seg = "files".toList then
      match env.args[2]? with
      | none => (.panicked, w)
      | some dir =>
        match pathParts[2]? with
        | none => (.panicked, w)
        | some name =>
          match osReadFile w (dir ++ name) with
          | none =>
            (.returned, writeResponse w "404 Not Found".toList
              "application/octet-stream".toList none)
          | some data =>
            (.returned, writeResponse w "200 OK".toList
              "application/octet-stream".toList (some data))
    else if existsPath env path then
      (.returned, writeResponse w "200 OK".toList "text/plain".toList none)
    else
      (.returned, writeResponse w "404 Not Found".toList "text/plain".toList none)

/-- `handlePostRequest`. -/
def handlePostRequest (env : Env) (w : World) (path body : Str) : Result :=
  let pathParts := split path "/".toList
  match pathParts[1]? with
  | none => (.panicked, w)
  | some seg =>
    if seg = "files".toList then
      match env.args[2]? with
      | none => (.panicked, w)
      | some dir =>
        match pathParts[2]? with
        | none => (.panicked, w)
        | some name =>
          let w1 := osCreate env w (dir ++ name)
          let w2 := osWriteFile env w1 (dir ++ name) body
          (.returned, connWrite w2 "HTTP/1.1 201 Created\r\n\r\n".toList)
    else (.returned, w)

/-- `processRequest`. -/
def processRequest (env : Env) (w : World) (headerParts : List Str) (body : Str) : Result :=
  match headerParts with
  | [] => (.panicked, w)
  | requestLine :: headers =>
    let requestParts := split requestLine " ".toList
    if requestParts.length ≠ 3 then (.exited .requestLine, w)
    else
      match requestParts[0]?, requestParts[1]? with
      | some method, some target =>
        let path := ".".toList ++ target
        match parseHeaders headers [] with
        | none => (.exited .header, w)
        | some headerMap =>
          if method = "GET".toList then handleGetRequest env w path headerMap
          else if method = "POST".toList then handlePostRequest env w path body
          else (.exited .method, w)
      | _, _ => (.panicked, w)

/-- `handleConnection`, from the result of `conn.Read` on: `none` is a read
error, `some data` the bytes the peer delivered, of which the 1024-byte buffer
takes the first `n = min (len data) 1024`. -/
def handleConnection (env : Env) (w : World) (incoming : Option Str) : Result :=
  match incoming with
  | none => (.exited .readError, w)
  | some data =>
    let n := min data.length 1024
    let buf := data.take 1024 ++ List.replicate (1024 - n) (Char.ofNat 0)
    match parseMessage buf n with
    | .sliceOutOfRange => (.panicked, w)
    | .indexOutOfRange => (.panicked, w)
    | .parsed headerParts body =>
      if headerParts.length = 0 then (.exited .noHeader, w)
      else processRequest env w headerParts body


/-! ## The stages of `processRequest` -/

/-- The wire text carries a `Content-Length` header that counts the body: the
text has a blank line, and one of the lines before the first blank line is
`Content-Length: ` followed by the decimal number of bytes after that blank
line. -/
def contentLengthMatchesBody (wire : Str) : Bool :=
  match index wire crlfcrlf with
  | none => false
  | some m =>
    (split (wire.take m) crlf).contains
      ("Content-Length: ".toList ++ itoa (wire.drop (m + 4)).length)

/-- The header lines of the wire text: the lines before the first blank line,
or none when there is no blank line. -/
def responseLines (wire : Str) : List Str :=
  match index wire crlfcrlf with
  | none => []
  | some m => split (wire.take m) crlf

/-- The body of the wire text: the bytes after the first blank line. -/
def responseBody (wire : Str) : Str :=
  match index wire crlfcrlf with
  | none => []
  | some m => wire.drop (m + 4)

/-- The bytes of a request on the wire: its lines joined with `"\r\n"`, the
blank line, and the body. -/
def requestBytes (lines : List Str) (body : Str) : Str :=
  join crlf lines ++ crlfcrlf ++ body

/-! ## Sample inputs -/

/-- A sample environment: base directory `/tmp/`, every path writable, a toy
compressor that puts one byte in front, and no path known to `os.Stat`. -/
def sampleEnv : Env :=
  { args := ["server".toList, "--directory".toList, "/tmp/".toList]
    writable := fun _ => true
    gzip := fun s => 'Z' :: s
    stat := fun _ => .notExist }

/-- The sample environment with a file store that refuses every write. -/
def readOnlyEnv : Env := { sampleEnv with writable := fun _ => false }

/-- A fresh connection over an empty file store. -/
def emptyWorld : World := { conn := [], files := [] }


/-- The value of the last pair with key `k` in a sequence of name and value
pairs, if there is one. -/
def lastValue : List (Str × Str) → Str → Option Str
  | [], _ => none
  | (k2, v) :: rest, k =>
    match lastValue rest k with
    | some x => some x
    | none => if k2 = k then some v else none

/-- The sample environment with an `os.Stat` that fails on every path with an
error other than "does not exist" (permission denied, say). -/
def statErrorEnv : Env := { sampleEnv with stat := fun _ => .otherError }

/-- The sample environment with an `os.Stat` that finds every path. -/
def statOkEnv : Env := { sampleEnv with stat := fun _ => .ok }


/-! ## Facts about `strings.Index` -/

theorem isPrefixOf_iff (p s : Str) : p.isPrefixOf s = true ↔ p <+: s :=
  List.isPrefixOf_iff_prefix

theorem index_eq_none_iff (s sep : Str) :
    index s sep = none ↔ ∀ j, ¬ sep <+: s.drop j := by
  induction s with
  | nil =>
    by_cases h : sep <+: []
    · simp only [index, (isPrefixOf_iff sep []).2 h, if_true]
      constructor
      · intro h0; cases h0
      · intro h0; exact absurd h (by simpa using h0 0)
    · have hb : sep.isPrefixOf [] = false := by
        rw [Bool.eq_false_iff]; intro hb; exact h ((isPrefixOf_iff _ _).1 hb)
      simp only [index, hb]
      constructor
      · intro _ j; simpa using h
      · intro _; rfl
  | cons c t ih =>
    by_cases h : sep <+: c :: t
    · simp only [index, (isPrefixOf_iff sep (c :: t)).2 h, if_true]
      constructor
      · intro h0; cases h0
      · intro h0; exact absurd h (by simpa using h0 0)
    · have hb : sep.isPrefixOf (c :: t) = false := by
        rw [Bool.eq_false_iff]; intro hb; exact h ((isPrefixOf_iff _ _).1 hb)
      simp only [index, hb, Bool.false_eq_true, if_false, Option.map_eq_none', ih]
      constructor
      · intro h0 j
        cases j with
        | zero => simpa using h
        | succ j => simpa using h0 j
      · intro h0 j
        simpa using h0 (j + 1)

theorem index_eq_some_iff (s sep : Str) (m : Nat) :
    index s sep = some m ↔
      m ≤ s.length ∧ sep <+: s.drop m ∧ ∀ j, j < m → ¬ sep <+: s.drop j := by
  induction s generalizing m with
  | nil =>
    by_cases h : sep <+: []
    · simp only [index, (isPrefixOf_iff sep []).2 h, if_true]
      constructor
      · intro h0
        cases h0
        exact ⟨by simp, by simpa using h, by intro j hj; omega⟩
      · rintro ⟨h1, _, _⟩
        have : m = 0 := by simpa using h1
        rw [this]
    · have hb : sep.isPrefixOf [] = false := by
        rw [Bool.eq_false_iff]; intro hb; exact h ((isPrefixOf_iff _ _).1 hb)
      simp only [index, hb]
      constructor
      · intro h0; cases h0
      · rintro ⟨_, h2, _⟩
        exact absurd (by simpa using h2) h
  | cons c t ih =>
    by_cases h : sep <+: c :: t
    · simp only [index, (isPrefixOf_iff sep (c :: t)).2 h, if_true]
      constructor
      · intro h0
        cases h0
        exact ⟨by simp, by simpa using h, by intro j hj; omega⟩
      · rintro ⟨_, _, h3⟩
        cases m with
        | zero => rfl
        | succ m => exact absurd (by simpa using h) (h3 0 (by omega))
    · have hb : sep.isPrefixOf (c :: t) = false := by
        rw [Bool.eq_false_iff]; intro hb; exact h ((isPrefixOf_iff _ _).1 hb)
      simp only [index, hb]
      cases m with
      | zero =>
        constructor
        · intro h0
          cases hi : index t sep <;> simp [hi] at h0
        · rintro ⟨_, h2, _⟩
          exact absurd (by simpa using h2) h
      | succ m =>
        have key : Option.map (· + 1) (index t sep) = some (m + 1) ↔ index t sep = some m := by
          cases hi : index t sep <;> simp
        simp only [Bool.false_eq_true, if_false]
        rw [key, ih m]
        constructor
        · rintro ⟨h1, h2, h3⟩
          refine ⟨by simpa using h1, by simpa using h2, ?_⟩
          intro j hj
          cases j with
          | zero => simpa using h
          | succ j => simpa using h3 j (by omega)
        · rintro ⟨h1, h2, h3⟩
          refine ⟨by simpa using h1, by simpa using h2, ?_⟩
          intro j hj
          simpa using h3 (j + 1) (by omega)

theorem infix_iff_exists_drop (sep s : Str) : sep <:+: s ↔ ∃ j, sep <+: s.drop j := by
  constructor
  · rintro ⟨a, b, rfl⟩
    exact ⟨a.length, b, by simp⟩
  · rintro ⟨j, hj⟩
    exact List.IsInfix.trans hj.isInfix (List.drop_suffix j s).isInfix

theorem contains_iff (s sep : Str) : contains s sep = true ↔ sep <:+: s := by
  rw [infix_iff_exists_drop]
  unfold contains
  cases h : index s sep with
  | none =>
    have := (index_eq_none_iff s sep).1 h
    simp only [Option.isSome_none, Bool.false_eq_true, false_iff, not_exists]
    exact this
  | some m =>
    have := (index_eq_some_iff s sep m).1 h
    simp only [Option.isSome_some, true_iff]
    exact ⟨m, this.2.1⟩

theorem contains_eq_false_iff (s sep : Str) : contains s sep = false ↔ ¬ sep <:+: s := by
  rw [← contains_iff, Bool.not_eq_true]

theorem index_some_of_occurrence {s sep : Str} (h : sep <:+: s) : ∃ m, index s sep = some m := by
  have := (contains_iff s sep).2 h
  unfold contains at this
  exact Option.isSome_iff_exists.1 this

theorem index_none_of_no_occurrence {s sep : Str} (h : ¬ sep <:+: s) : index s sep = none := by
  have := (contains_eq_false_iff s sep).2 h
  unfold contains at this
  simpa using this

/-- Cutting at the index found by `Index` loses nothing. -/
theorem take_sep_drop_of_index {s sep : Str} {m : Nat} (h : index s sep = some m) :
    s.take m ++ sep ++ s.drop (m + sep.length) = s := by
  obtain ⟨_, ⟨t, ht⟩, _⟩ := (index_eq_some_iff s sep m).1 h
  have h1 : s.drop (m + sep.length) = t := by
    rw [← List.drop_drop, ← ht]
    simp
  rw [h1, List.append_assoc, ht, List.take_append_drop]

theorem index_add_length_le {s sep : Str} {m : Nat} (h : index s sep = some m) :
    m + sep.length ≤ s.length := by
  obtain ⟨h1, h2, _⟩ := (index_eq_some_iff s sep m).1 h
  have := h2.length_le
  simp only [List.length_drop] at this
  omega

/-- An occurrence that ends inside the first `m` bytes is an occurrence in the
prefix of length `m`, and conversely. -/
theorem prefix_drop_take_iff (s sep : Str) (j m : Nat) (h : j + sep.length ≤ m) :
    sep <+: (s.take m).drop j ↔ sep <+: s.drop j := by
  rw [List.prefix_iff_eq_take, List.prefix_iff_eq_take, List.drop_take, List.take_take,
    Nat.min_eq_left (by omega)]

theorem index_take_eq_none {s sep : Str} {m : Nat} (hsep : sep ≠ [])
    (h : index s sep = some m) : index (s.take m) sep = none := by
  obtain ⟨h1, _, h3⟩ := (index_eq_some_iff s sep m).1 h
  rw [index_eq_none_iff]
  intro j hj
  have hlen := hj.length_le
  simp only [List.length_drop, List.length_take] at hlen
  have hpos : 0 < sep.length := List.length_pos.2 hsep
  have hjm : j + sep.length ≤ m := by omega
  exact h3 j (by omega) ((prefix_drop_take_iff s sep j m hjm).1 hj)

/-! ## Facts about `strings.Split` and `strings.SplitN` -/

theorem index_nil_eq_none {sep : Str} (hsep : sep ≠ []) : index [] sep = none := by
  cases sep with
  | nil => exact absurd rfl hsep
  | cons c t => rfl

theorem genSplitLoop_ne_nil (sep : Str) (k : Nat) (s : Str) : genSplitLoop sep k s ≠ [] := by
  cases k with
  | zero => simp [genSplitLoop]
  | succ k =>
    cases h : index s sep <;> simp [genSplitLoop, h]

/-- Once the bound covers the length of the string, the loop no longer depends
on it: it has stopped at a failed `Index` before the bound is used up. -/
theorem genSplitLoop_fuel {sep : Str} (hsep : sep ≠ []) (k k2 : Nat) (s : Str)
    (hk : s.length ≤ k) (hk2 : s.length ≤ k2) :
    genSplitLoop sep k s = genSplitLoop sep k2 s := by
  induction k generalizing k2 s with
  | zero =>
    have hs : s = [] := List.length_eq_zero.1 (by omega)
    subst hs
    cases k2 with
    | zero => rfl
    | succ k2 => simp [genSplitLoop, index_nil_eq_none hsep]
  | succ k ih =>
    cases k2 with
    | zero =>
      have hs : s = [] := List.length_eq_zero.1 (by omega)
      subst hs
      simp [genSplitLoop, index_nil_eq_none hsep]
    | succ k2 =>
      cases h : index s sep with
      | none => simp [genSplitLoop, h]
      | some m =>
        have hpos : 0 < sep.length := List.length_pos.2 hsep
        have hle := index_add_length_le h
        simp only [genSplitLoop, h]
        rw [ih k2 (s.drop (m + sep.length)) (by simp only [List.length_drop]; omega)
          (by simp only [List.length_drop]; omega)]

/-- The recursion `Split` follows: no separator, one piece; otherwise the text
before the first separator, then the pieces of what follows it. -/
theorem split_eq {sep : Str} (hsep : sep ≠ []) (s : Str) :
    split s sep =
      match index s sep with
      | none => [s]
      | some m => s.take m :: split (s.drop (m + sep.length)) sep := by
  unfold split
  cases hl : s.length with
  | zero =>
    have hs : s = [] := List.length_eq_zero.1 hl
    subst hs
    simp [genSplitLoop, index_nil_eq_none hsep]
  | succ n =>
    cases h : index s sep with
    | none => simp [genSplitLoop, h]
    | some m =>
      have hpos : 0 < sep.length := List.length_pos.2 hsep
      have hle := index_add_length_le h
      simp only [genSplitLoop, h]
      rw [genSplitLoop_fuel hsep n (s.drop (m + sep.length)).length (s.drop (m + sep.length))
        (by simp only [List.length_drop]; omega) (Nat.le_refl _)]

theorem split_ne_nil (s sep : Str) : split s sep ≠ [] := genSplitLoop_ne_nil sep _ s

theorem split_of_index_none {sep : Str} (hsep : sep ≠ []) {s : Str} (h : index s sep = none) :
    split s sep = [s] := by
  rw [split_eq hsep, h]

theorem split_of_index_some {sep : Str} (hsep : sep ≠ []) {s : Str} {m : Nat}
    (h : index s sep = some m) :
    split s sep = s.take m :: split (s.drop (m + sep.length)) sep := by
  rw [split_eq hsep, h]

theorem split_length_eq_one_iff {sep : Str} (hsep : sep ≠ []) (s : Str) :
    (split s sep).length = 1 ↔ index s sep = none := by
  cases h : index s sep with
  | none => simp [split_of_index_none hsep h]
  | some m =>
    rw [split_of_index_some hsep h]
    have := List.length_pos.2 (split_ne_nil (s.drop (m + sep.length)) sep)
    simp only [List.length_cons, reduceCtorEq, iff_false]
    omega

/-- Joining the pieces with the separator gives the string back. -/
theorem join_genSplitLoop (sep : Str) (k : Nat) (s : Str) :
    join sep (genSplitLoop sep k s) = s := by
  induction k generalizing s with
  | zero => simp [genSplitLoop, join]
  | succ k ih =>
    cases h : index s sep with
    | none => simp [genSplitLoop, h, join]
    | some m =>
      simp only [genSplitLoop, h]
      have hne := genSplitLoop_ne_nil sep k (s.drop (m + sep.length))
      have hih := ih (s.drop (m + sep.length))
      cases hr : genSplitLoop sep k (s.drop (m + sep.length)) with
      | nil => exact absurd hr hne
      | cons q rest =>
        rw [hr] at hih
        simp only [join]
        rw [hih]
        exact take_sep_drop_of_index h

theorem join_split (s sep : Str) : join sep (split s sep) = s := join_genSplitLoop sep _ s

/-- No piece returned by `Split` contains the separator. -/
theorem index_eq_none_of_mem_split {sep : Str} (hsep : sep ≠ []) (n : Nat) :
    ∀ s : Str, s.length ≤ n → ∀ p, p ∈ split s sep → index p sep = none := by
  induction n with
  | zero =>
    intro s hs p hp
    have hs0 : s = [] := List.length_eq_zero.1 (by omega)
    subst hs0
    rw [split_of_index_none hsep (index_nil_eq_none hsep)] at hp
    simp only [List.mem_singleton] at hp
    subst hp
    exact index_nil_eq_none hsep
  | succ n ih =>
    intro s hs p hp
    cases h : index s sep with
    | none =>
      rw [split_of_index_none hsep h] at hp
      simp only [List.mem_singleton] at hp
      subst hp
      exact h
    | some m =>
      rw [split_of_index_some hsep h] at hp
      have hpos : 0 < sep.length := List.length_pos.2 hsep
      have hle := index_add_length_le h
      rcases List.mem_cons.1 hp with hp | hp
      · subst hp
        exact index_take_eq_none hsep h
      · exact ih (s.drop (m + sep.length)) (by simp only [List.length_drop]; omega) p hp

theorem no_separator_in_piece {sep : Str} (hsep : sep ≠ []) {s p : Str}
    (hp : p ∈ split s sep) : ¬ sep <:+: p := by
  have := index_eq_none_of_mem_split hsep s.length s (Nat.le_refl _) p hp
  intro hi
  obtain ⟨m, hm⟩ := index_some_of_occurrence hi
  rw [this] at hm
  cases hm

theorem splitN_two {sep : Str} (hsep : sep ≠ []) (s : Str) :
    splitN s sep 2 =
      match index s sep with
      | none => [s]
      | some m => [s.take m, s.drop (m + sep.length)] := by
  unfold splitN
  cases s with
  | nil => simp [genSplitLoop, index_nil_eq_none hsep]
  | cons c t =>
    have h1 : min 2 ((c :: t).length + 1) - 1 = 1 := by
      simp only [List.length_cons]; omega
    simp only [h1, OfNat.ofNat_ne_zero, if_false, genSplitLoop]

/-! ## Facts about `parseMessage` -/

theorem crlf_eq : crlf = ['\r', '\n'] := rfl

theorem crlfcrlf_eq : crlfcrlf = ['\r', '\n', '\r', '\n'] := rfl

theorem crlf_ne_nil : crlf ≠ [] := by rw [crlf_eq]; simp

theorem crlfcrlf_ne_nil : crlfcrlf ≠ [] := by rw [crlfcrlf_eq]; simp

/-- What `parseMessage` computes for a length within the buffer, by the result
of `Index` for the blank line. -/
theorem parseMessage_eq (buf : Str) (n : Nat) (hn : n ≤ buf.length) :
    parseMessage buf n =
      match index (buf.take n) crlfcrlf with
      | none => .indexOutOfRange
      | some m => .parsed (split ((buf.take n).take m) crlf) ((buf.take n).drop (m + 4)) := by
  unfold parseMessage
  rw [if_neg (Nat.not_lt.2 hn)]
  simp only [splitN_two crlfcrlf_ne_nil]
  cases index (buf.take n) crlfcrlf <;> rfl

/-- A length beyond the buffer makes `buf[:n]` panic. -/
theorem parseMessage_of_length_lt (buf : Str) (n : Nat) (hn : buf.length < n) :
    parseMessage buf n = .sliceOutOfRange := by
  unfold parseMessage
  rw [if_pos hn]

/-- The first line break of a text that has a blank line at its first `m`: it is
the first line break of the header block when that has one, and the blank line
itself otherwise. -/
theorem index_crlf_of_index_crlfcrlf {data : Str} {m : Nat}
    (h : index data crlfcrlf = some m) :
    index data crlf = some ((index (data.take m) crlf).getD m) := by
  obtain ⟨h1, h2, h3⟩ := (index_eq_some_iff data crlfcrlf m).1 h
  have hcc : crlf <+: data.drop m := List.IsPrefix.trans ⟨crlf, rfl⟩ h2
  cases hk : index (data.take m) crlf with
  | none =>
    simp only [Option.getD_none]
    rw [index_eq_some_iff]
    refine ⟨h1, hcc, ?_⟩
    intro j hj hjp
    by_cases hjm : j + 2 ≤ m
    · exact (index_eq_none_iff _ _).1 hk j
        ((prefix_drop_take_iff data crlf j m (by simpa [crlf_eq] using hjm)).2 hjp)
    · have hj1 : m = j + 1 := by omega
      obtain ⟨t, ht⟩ := hjp
      obtain ⟨u, hu⟩ := h2
      have e1 : data.drop (j + 1) = '\n' :: t := by
        rw [← List.drop_drop, ← ht, crlf_eq]; rfl
      rw [hj1, e1, crlfcrlf_eq] at hu
      simp at hu
  | some k =>
    simp only [Option.getD_some]
    obtain ⟨k1, k2, k3⟩ := (index_eq_some_iff _ crlf k).1 hk
    have hkl := index_add_length_le hk
    simp only [List.length_take, crlf_eq, List.length_cons, List.length_nil] at hkl
    have hkm : k + 2 ≤ m := by omega
    rw [index_eq_some_iff]
    refine ⟨by omega, (prefix_drop_take_iff data crlf k m (by simpa [crlf_eq] using hkm)).1 k2, ?_⟩
    intro j hj hjp
    exact k3 j hj ((prefix_drop_take_iff data crlf j m (by simp [crlf_eq]; omega)).2 hjp)

theorem head_split_crlf (header : Str) :
    (split header crlf).head? = some (header.take ((index header crlf).getD header.length)) := by
  cases h : index header crlf with
  | none => simp [split_of_index_none crlf_ne_nil h]
  | some k => simp [split_of_index_some crlf_ne_nil h]

/-! ## Lines without a carriage return -/

theorem digitChar_ne_cr (n : Nat) : Nat.digitChar (n % 10) ≠ '\r' := by
  have h : n % 10 < 10 := Nat.mod_lt _ (by decide)
  generalize n % 10 = d at h
  interval_cases d <;> decide

theorem toDigitsCore_no_cr (f : Nat) :
    ∀ (n : Nat) (ds : List Char), (∀ c, c ∈ ds → c ≠ '\r') →
      ∀ c, c ∈ Nat.toDigitsCore 10 f n ds → c ≠ '\r' := by
  induction f with
  | zero => intro n ds hds c hc; exact hds c (by simpa [Nat.toDigitsCore] using hc)
  | succ f ih =>
    intro n ds hds c hc
    have hcons : ∀ c, c ∈ Nat.digitChar (n % 10) :: ds → c ≠ '\r' := by
      intro c hc
      rcases List.mem_cons.1 hc with h | h
      · rw [h]; exact digitChar_ne_cr _
      · exact hds c h
    simp only [Nat.toDigitsCore] at hc
    split_ifs at hc
    · exact hcons c hc
    · exact ih _ _ hcons c hc

theorem itoa_no_cr (n : Nat) : ∀ c, c ∈ itoa n → c ≠ '\r' :=
  toDigitsCore_no_cr _ n [] (by simp)

theorem index_cons_of_mismatch (c : Char) (t sep : Str)
    (h : sep.isPrefixOf (c :: t) = false) :
    index (c :: t) sep = (index t sep).map (· + 1) := by
  simp [index, h]

/-- Skipping a stretch that lacks the first byte of the separator. -/
theorem index_append_of_no_head (a : Char) (sep2 : Str) (l rest : Str)
    (hl : ∀ c, c ∈ l → c ≠ a) :
    index (l ++ rest) (a :: sep2) = (index rest (a :: sep2)).map (· + l.length) := by
  induction l with
  | nil =>
    simp only [List.nil_append, List.length_nil, Nat.add_zero]
    cases index rest (a :: sep2) <;> rfl
  | cons c t ih =>
    have hc : c ≠ a := hl c (List.mem_cons_self _ _)
    have hne : (a == c) = false := by
      rw [beq_eq_false_iff_ne]; exact fun h => hc h.symm
    have ht := ih (fun d hd => hl d (List.mem_cons_of_mem _ hd))
    rw [List.cons_append, index_cons_of_mismatch _ _ _ (by simp [List.isPrefixOf, hne]), ht]
    cases index rest (a :: sep2) <;> simp [Nat.add_assoc]

theorem index_append_of_no_cr (sep2 : Str) (l rest : Str) (hl : ∀ c, c ∈ l → c ≠ '\r') :
    index (l ++ rest) ('\r' :: sep2) = (index rest ('\r' :: sep2)).map (· + l.length) :=
  index_append_of_no_head '\r' sep2 l rest hl

theorem index_self_append (sep rest : Str) : index (sep ++ rest) sep = some 0 := by
  rw [index_eq_some_iff]
  exact ⟨Nat.zero_le _, by simp, by intro j hj; omega⟩

theorem index_of_no_head (a : Char) (sep2 : Str) (l : Str) (hl : ∀ c, c ∈ l → c ≠ a) :
    index l (a :: sep2) = none := by
  have := index_append_of_no_head a sep2 l [] hl
  rw [List.append_nil] at this
  rw [this]
  rfl

theorem index_crlf_of_no_cr (l : Str) (hl : ∀ c, c ∈ l → c ≠ '\r') : index l crlf = none :=
  index_of_no_head '\r' ['\n'] l hl

/-- `Split` undoes `Join` on pieces that lack the first byte of the separator. -/
theorem split_join_of_no_head (a : Char) (sep2 : Str) (l : Str) (ls : List Str)
    (h : ∀ x, x ∈ l :: ls → ∀ c, c ∈ x → c ≠ a) :
    split (join (a :: sep2) (l :: ls)) (a :: sep2) = l :: ls := by
  have hsep : a :: sep2 ≠ [] := by simp
  induction ls generalizing l with
  | nil =>
    simp only [join]
    exact split_of_index_none hsep (index_of_no_head a sep2 l (h l (List.mem_cons_self _ _)))
  | cons q rest ih =>
    have hl := h l (List.mem_cons_self _ _)
    have hidx : index (join (a :: sep2) (l :: q :: rest)) (a :: sep2) = some l.length := by
      simp only [join, List.append_assoc]
      rw [index_append_of_no_head a sep2 l _ hl, index_self_append]
      simp
    rw [split_of_index_some hsep hidx]
    have h1 : (join (a :: sep2) (l :: q :: rest)).take l.length = l := by
      simp only [join, List.append_assoc]
      simp
    have h2 : (join (a :: sep2) (l :: q :: rest)).drop (l.length + (a :: sep2).length)
        = join (a :: sep2) (q :: rest) := by
      simp only [join, List.append_assoc]
      rw [← List.drop_drop]
      simp
    rw [h1, h2, ih q (fun x hx => h x (List.mem_cons_of_mem _ hx))]

theorem split_join_crlf (l : Str) (ls : List Str)
    (h : ∀ x, x ∈ l :: ls → ∀ c, c ∈ x → c ≠ '\r') :
    split (join crlf (l :: ls)) crlf = l :: ls :=
  split_join_of_no_head '\r' ['\n'] l ls h

/-- The first blank line after non-empty lines without carriage return is the
one that follows them. -/
theorem index_crlfcrlf_join (l : Str) (ls : List Str) (body : Str)
    (h : ∀ x, x ∈ l :: ls → x ≠ [] ∧ ∀ c, c ∈ x → c ≠ '\r') :
    index (join crlf (l :: ls) ++ crlfcrlf ++ body) crlfcrlf
      = some (join crlf (l :: ls)).length := by
  induction ls generalizing l with
  | nil =>
    have hl := (h l (List.mem_cons_self _ _)).2
    simp only [join, List.append_assoc]
    rw [crlfcrlf_eq, index_append_of_no_cr ['\n', '\r', '\n'] l _ hl, index_self_append]
    simp
  | cons q rest ih =>
    have hl := (h l (List.mem_cons_self _ _)).2
    have hq := h q (List.mem_cons_of_mem _ (List.mem_cons_self _ _))
    have hih := ih q (fun x hx => h x (List.mem_cons_of_mem _ hx))
    obtain ⟨c, t, hct⟩ := List.exists_cons_of_ne_nil hq.1
    have hc : c ≠ '\r' := hq.2 c (by rw [hct]; exact List.mem_cons_self _ _)
    have hne : ('\r' == c) = false := by
      rw [beq_eq_false_iff_ne]; exact fun h => hc h.symm
    have hstep : ∀ X : Str, index (crlf ++ ((c :: t) ++ X)) crlfcrlf
        = (index ((c :: t) ++ X) crlfcrlf).map (· + 2) := by
      intro X
      have hn : ('\r' == '\n') = false := by decide
      simp only [crlf_eq, crlfcrlf_eq, List.cons_append, List.nil_append, index,
        List.isPrefixOf, hne, hn, beq_self_eq_true, Bool.true_and, Bool.false_and,
        Bool.and_false, Bool.false_eq_true, if_false, Option.map_map]
      cases index (t ++ X) ['\r', '\n', '\r', '\n'] <;> simp
    obtain ⟨J2, hJ2⟩ : ∃ J2, join crlf (q :: rest) = q ++ J2 := by
      cases rest with
      | nil => exact ⟨[], by simp [join]⟩
      | cons r rs => exact ⟨crlf ++ join crlf (r :: rs), by simp [join]⟩
    have h1 : index (crlf ++ (join crlf (q :: rest) ++ (crlfcrlf ++ body))) crlfcrlf
        = some ((join crlf (q :: rest)).length + 2) := by
      have h2 := hstep (J2 ++ (crlfcrlf ++ body))
      rw [← hct, ← List.append_assoc q, ← hJ2] at h2
      rw [h2, ← List.append_assoc, hih]
      rfl
    have h3 : join crlf (l :: q :: rest) ++ crlfcrlf ++ body
        = l ++ (crlf ++ (join crlf (q :: rest) ++ (crlfcrlf ++ body))) := by
      simp only [join, List.append_assoc]
    rw [h3, crlfcrlf_eq, index_append_of_no_cr ['\n', '\r', '\n'] l _ hl, ← crlfcrlf_eq, h1]
    simp only [join, Option.map_some', List.length_append, crlf_eq, List.length_cons,
      List.length_nil]
    congr 1
    omega

/-! ## Facts about the response writer -/

theorem parse_response (l : Str) (ls : List Str) (body : Str)
    (h : ∀ x, x ∈ l :: ls → x ≠ [] ∧ ∀ c, c ∈ x → c ≠ '\r') :
    responseLines (join crlf (l :: ls) ++ crlfcrlf ++ body) = l :: ls ∧
    responseBody (join crlf (l :: ls) ++ crlfcrlf ++ body) = body := by
  have hidx := index_crlfcrlf_join l ls body h
  have h4 : crlfcrlf.length = 4 := rfl
  unfold responseLines responseBody
  rw [hidx]
  simp only [List.append_assoc]
  constructor
  · rw [List.take_left]
    exact split_join_crlf l ls (fun x hx => (h x hx).2)
  · rw [← h4, ← List.length_append, ← List.append_assoc, List.drop_left]

theorem contentLengthMatchesBody_eq (wire : Str) :
    contentLengthMatchesBody wire =
      (responseLines wire).contains
        ("Content-Length: ".toList ++ itoa (responseBody wire).length)
      := by
  unfold contentLengthMatchesBody responseLines responseBody
  cases index wire crlfcrlf <;> simp

theorem no_cr_append {a b : Str} (ha : ∀ c, c ∈ a → c ≠ '\r') (hb : ∀ c, c ∈ b → c ≠ '\r') :
    ∀ c, c ∈ a ++ b → c ≠ '\r' := by
  intro c hc
  rcases List.mem_append.1 hc with h | h
  · exact ha c h
  · exact hb c h

/-- What `writeResponse` puts on a fresh connection: three header lines, the
blank line, and the body. -/
theorem writeResponse_wire (files : List (Str × Str)) (status contentType : Str)
    (body : Option Str) :
    (writeResponse ⟨[], files⟩ status contentType body).wire
      = join crlf ["HTTP/1.1 ".toList ++ status, "Content-Type: ".toList ++ contentType,
          "Content-Length: ".toList ++ itoa (body.getD []).length]
        ++ crlfcrlf ++ body.getD [] := by
  have e1 : "\r\nContent-Type: ".toList = crlf ++ "Content-Type: ".toList := rfl
  have e2 : "\r\nContent-Length: ".toList = crlf ++ "Content-Length: ".toList := rfl
  have e3 : "\r\n\r\n".toList = crlfcrlf := rfl
  cases body <;>
    simp only [writeResponse, connWrite, World.wire, join, e1, e2, e3, Option.getD_none,
      Option.getD_some, List.nil_append, List.flatten_cons, List.flatten_nil, List.append_nil,
      List.append_assoc, List.cons_append]

theorem writeResponse_lines_body (files : List (Str × Str)) (status contentType : Str)
    (body : Option Str) (hs : ∀ c, c ∈ status → c ≠ '\r')
    (hc : ∀ c, c ∈ contentType → c ≠ '\r') :
    responseLines (writeResponse ⟨[], files⟩ status contentType body).wire
      = ["HTTP/1.1 ".toList ++ status, "Content-Type: ".toList ++ contentType,
          "Content-Length: ".toList ++ itoa (body.getD []).length] ∧
    responseBody (writeResponse ⟨[], files⟩ status contentType body).wire = body.getD [] := by
  rw [writeResponse_wire]
  apply parse_response
  intro x hx
  simp only [List.mem_cons, List.mem_singleton, List.not_mem_nil, or_false] at hx
  rcases hx with rfl | rfl | rfl
  · exact ⟨by simp, no_cr_append (by decide) hs⟩
  · exact ⟨by simp, no_cr_append (by decide) hc⟩
  · exact ⟨by simp, no_cr_append (by decide) (itoa_no_cr _)⟩


/-! ## Facts about routing -/

theorem processRequest_get (env : Env) (w : World) (requestLine : Str) (headers : List Str)
    (body target version : Str) (hm : HeaderMap)
    (hline : split requestLine " ".toList = ["GET".toList, target, version])
    (hhdr : parseHeaders headers [] = some hm) :
    processRequest env w (requestLine :: headers) body
      = handleGetRequest env w (".".toList ++ target) hm := by
  simp only [processRequest, hline, hhdr]
  rfl

theorem processRequest_post (env : Env) (w : World) (requestLine : Str) (headers : List Str)
    (body target version : Str) (hm : HeaderMap)
    (hline : split requestLine " ".toList = ["POST".toList, target, version])
    (hhdr : parseHeaders headers [] = some hm) :
    processRequest env w (requestLine :: headers) body
      = handlePostRequest env w (".".toList ++ target) body := by
  simp only [processRequest, hline, hhdr]
  rfl

/-- The segments of a path `./a/b` with `b` free of `/`. -/
theorem split_path_two (a b : Str) (ha : ∀ c, c ∈ a → c ≠ '/') (hb : ∀ c, c ∈ b → c ≠ '/') :
    split (".".toList ++ ("/".toList ++ a ++ "/".toList ++ b)) "/".toList
      = [".".toList, a, b] := by
  have e : ".".toList ++ ("/".toList ++ a ++ "/".toList ++ b)
      = join ['/'] [".".toList, a, b] := by
    simp [join]
  rw [e]
  apply split_join_of_no_head '/' []
  intro x hx
  simp only [List.mem_cons, List.mem_singleton, List.not_mem_nil, or_false] at hx
  rcases hx with rfl | rfl | rfl
  · decide
  · exact ha
  · exact hb

theorem split_echo_path (p : Str) (hp : ∀ c, c ∈ p → c ≠ '/') :
    split (".".toList ++ ("/echo/".toList ++ p)) "/".toList
      = [".".toList, "echo".toList, p] :=
  split_path_two "echo".toList p (by decide) hp

theorem split_files_path (f : Str) (hf : ∀ c, c ∈ f → c ≠ '/') :
    split (".".toList ++ ("/files/".toList ++ f)) "/".toList
      = [".".toList, "files".toList, f] :=
  split_path_two "files".toList f (by decide) hf

/-- The `gzip` test of `handleEchoRequest` on a header map. -/
theorem contains_gzip_eq_false (hm : HeaderMap)
    (hae : hm.lookup "Accept-Encoding".toList = none ∨
      ∃ v, hm.lookup "Accept-Encoding".toList = some v ∧ ¬ "gzip".toList <:+: v) :
    contains (hm.get "Accept-Encoding".toList) "gzip".toList = false := by
  rw [contains_eq_false_iff]
  unfold HeaderMap.get
  rcases hae with h | ⟨v, h, hv⟩
  · rw [h]
    simp only [Option.getD_none]
    intro hi
    have := hi.length_le
    simp at this
  · rw [h]
    exact hv

theorem contains_gzip_eq_true (hm : HeaderMap) (v : Str)
    (hae : hm.lookup "Accept-Encoding".toList = some v) (hv : "gzip".toList <:+: v) :
    contains (hm.get "Accept-Encoding".toList) "gzip".toList = true := by
  rw [contains_iff]
  unfold HeaderMap.get
  rw [hae]
  exact hv


/-! ## Facts about the file store -/

theorem lookup_putFile (files : List (Str × Str)) (path data : Str) :
    (putFile files path data).lookup path = some data := by
  simp [putFile, List.lookup]

theorem osReadFile_after_write (env : Env) (w : World) (path data : Str)
    (hw : env.writable path = true) :
    osReadFile (osWriteFile env (osCreate env w path) path data) path = some data := by
  simp only [osReadFile, osWriteFile, osCreate, hw, if_true]
  exact lookup_putFile _ _ _

theorem handlePostRequest_files (env : Env) (w : World) (name body base : Str)
    (hname : ∀ c, c ∈ name → c ≠ '/') (hargs : env.args[2]? = some base) :
    handlePostRequest env w (".".toList ++ ("/files/".toList ++ name)) body
      = (.returned,
          connWrite (osWriteFile env (osCreate env w (base ++ name)) (base ++ name) body)
            "HTTP/1.1 201 Created\r\n\r\n".toList) := by
  simp only [handlePostRequest, split_files_path name hname, hargs]
  rfl

theorem handleGetRequest_files (env : Env) (w : World) (name base : Str) (hm : HeaderMap)
    (hname : ∀ c, c ∈ name → c ≠ '/') (hargs : env.args[2]? = some base) :
    handleGetRequest env w (".".toList ++ ("/files/".toList ++ name)) hm
      = match osReadFile w (base ++ name) with
        | none =>
          (.returned, writeResponse w "404 Not Found".toList
            "application/octet-stream".toList none)
        | some data =>
          (.returned, writeResponse w "200 OK".toList
            "application/octet-stream".toList (some data)) := by
  simp only [handleGetRequest, split_files_path name hname, hargs]
  rfl


/-! ## Facts about `parseHeaders` -/

/-- One step of `parseHeaders`, by the occurrences of `": "` in the line. -/
theorem parseHeaders_cons (part : Str) (rest : List Str) (hm : HeaderMap) :
    parseHeaders (part :: rest) hm
      = (match index part ": ".toList with
        | none => none
        | some k =>
          if contains (part.drop (k + 2)) ": ".toList then none
          else parseHeaders rest (hm.set (part.take k) (part.drop (k + 2)))) := by
  have hsep : ": ".toList ≠ [] := by decide
  cases hk : index part ": ".toList with
  | none =>
    simp only [parseHeaders, split_of_index_none hsep hk]
    rfl
  | some k =>
    have hsp := split_of_index_some hsep hk
    have hlen : (": ".toList).length = 2 := rfl
    rw [hlen] at hsp
    show parseHeaders (part :: rest) hm
      = if contains (part.drop (k + 2)) ": ".toList then none
        else parseHeaders rest (hm.set (part.take k) (part.drop (k + 2)))
    cases hc : contains (part.drop (k + 2)) ": ".toList with
    | true =>
      have hne : (split (part.drop (k + 2)) ": ".toList).length ≠ 1 := by
        rw [Ne, split_length_eq_one_iff hsep]
        intro hn
        unfold contains at hc
        rw [hn] at hc
        cases hc
      have hl2 : (split part ": ".toList).length ≠ 2 := by
        rw [hsp, List.length_cons]
        omega
      simp only [parseHeaders, hl2, ne_eq, not_false_eq_true, if_true]
    | false =>
      have hn : index (part.drop (k + 2)) ": ".toList = none := by
        unfold contains at hc
        cases hi : index (part.drop (k + 2)) ": ".toList with
        | none => rfl
        | some j => rw [hi] at hc; cases hc
      rw [split_of_index_none hsep hn] at hsp
      simp only [parseHeaders, hsp]
      rfl


/-! ## How the handlers can end -/

theorem contentLengthMatchesBody_of_lines (l : Str) (ls : List Str) (body : Str)
    (h : ∀ x, x ∈ l :: ls → x ≠ [] ∧ ∀ c, c ∈ x → c ≠ '\r')
    (hmem : "Content-Length: ".toList ++ itoa body.length ∈ l :: ls) :
    contentLengthMatchesBody (join crlf (l :: ls) ++ crlfcrlf ++ body) = true := by
  obtain ⟨h1, h2⟩ := parse_response l ls body h
  rw [contentLengthMatchesBody_eq, h1, h2]
  exact List.elem_iff.2 hmem

theorem writeResponse_contentLength (files : List (Str × Str)) (status contentType : Str)
    (body : Option Str) (hs : ∀ c, c ∈ status → c ≠ '\r')
    (hc : ∀ c, c ∈ contentType → c ≠ '\r') :
    contentLengthMatchesBody (writeResponse ⟨[], files⟩ status contentType body).wire
      = true := by
  obtain ⟨h1, h2⟩ := writeResponse_lines_body files status contentType body hs hc
  rw [contentLengthMatchesBody_eq, h1, h2]
  apply List.elem_iff.2
  simp only [List.mem_cons, true_or, or_true]

theorem handleEchoRequest_contentLength (env : Env) (files : List (Str × Str))
    (parts : List Str) (hm : HeaderMap) :
    (handleEchoRequest env ⟨[], files⟩ parts hm).1 = .returned →
    contentLengthMatchesBody (handleEchoRequest env ⟨[], files⟩ parts hm).2.wire = true := by
  simp only [handleEchoRequest]
  by_cases h3 : parts.length ≠ 3
  · rw [if_pos h3]
    intro hret
    cases hret
  · rw [if_neg h3]
    cases parts[2]? with
    | none => intro hret; cases hret
    | some payload =>
      dsimp only
      intro _
      by_cases hg : contains (hm.get "Accept-Encoding".toList) "gzip".toList = true
      · simp only [hg, if_true]
        have hw : (connWrite ⟨[], files⟩
            ("HTTP/1.1 200 OK\r\n".toList ++ "Content-Encoding: gzip\r\n".toList
              ++ "Content-Type: text/plain\r\nContent-Length: ".toList
              ++ itoa (env.gzip payload).length ++ "\r\n\r\n".toList ++ env.gzip payload)).wire
            = join crlf ["HTTP/1.1 200 OK".toList, "Content-Encoding: gzip".toList,
                "Content-Type: text/plain".toList,
                "Content-Length: ".toList ++ itoa (env.gzip payload).length]
              ++ crlfcrlf ++ env.gzip payload := by
          simp only [connWrite, World.wire, List.nil_append, List.flatten_cons,
            List.flatten_nil, List.append_nil, join, List.append_assoc]
          rfl
        rw [hw]
        apply contentLengthMatchesBody_of_lines
        · intro x hx
          simp only [List.mem_cons, List.mem_singleton, List.not_mem_nil, or_false] at hx
          rcases hx with rfl | rfl | rfl | rfl
          · exact ⟨by decide, by decide⟩
          · exact ⟨by decide, by decide⟩
          · exact ⟨by decide, by decide⟩
          · exact ⟨by simp, no_cr_append (by decide) (itoa_no_cr _)⟩
        · simp only [List.mem_cons, true_or, or_true]
      · simp only [hg, Bool.false_eq_true, if_false]
        have hw : (connWrite ⟨[], files⟩
            ("HTTP/1.1 200 OK\r\n".toList
              ++ "Content-Type: text/plain\r\nContent-Length: ".toList
              ++ itoa payload.length ++ "\r\n\r\n".toList ++ payload)).wire
            = join crlf ["HTTP/1.1 200 OK".toList, "Content-Type: text/plain".toList,
                "Content-Length: ".toList ++ itoa payload.length]
              ++ crlfcrlf ++ payload := by
          simp only [connWrite, World.wire, List.nil_append, List.flatten_cons,
            List.flatten_nil, List.append_nil, join, List.append_assoc]
          rfl
        rw [hw]
        apply contentLengthMatchesBody_of_lines
        · intro x hx
          simp only [List.mem_cons, List.mem_singleton, List.not_mem_nil, or_false] at hx
          rcases hx with rfl | rfl | rfl
          · exact ⟨by decide, by decide⟩
          · exact ⟨by decide, by decide⟩
          · exact ⟨by simp, no_cr_append (by decide) (itoa_no_cr _)⟩
        · simp only [List.mem_cons, true_or, or_true]

theorem handleGetRequest_contentLength (env : Env) (files : List (Str × Str))
    (path : Str) (hm : HeaderMap) :
    (handleGetRequest env ⟨[], files⟩ path hm).1 = .returned →
    contentLengthMatchesBody (handleGetRequest env ⟨[], files⟩ path hm).2.wire = true := by
  have he := handleEchoRequest_contentLength env files (split path "/".toList) hm
  simp only [handleGetRequest]
  cases (split path "/".toList)[1]? with
  | none => intro hret; cases hret
  | some seg =>
    dsimp only
    by_cases h1 : seg = "user-agent".toList
    · simp only [h1, ↓reduceIte]
      intro _
      exact writeResponse_contentLength _ _ _ _ (by decide) (by decide)
    · by_cases h2 : seg = "echo".toList
      · simp only [h1, h2, ↓reduceIte]
        exact he
      · by_cases h3 : seg = "files".toList
        · subst h3
          simp only [h1, h2, ↓reduceIte]
          cases env.args[2]? with
          | none => intro hret; cases hret
          | some dir =>
            cases (split path "/".toList)[2]? with
            | none => intro hret; cases hret
            | some name =>
              dsimp only
              intro _
              cases osReadFile ⟨[], files⟩ (dir ++ name) with
              | none => exact writeResponse_contentLength _ _ _ _ (by decide) (by decide)
              | some data => exact writeResponse_contentLength _ _ _ _ (by decide) (by decide)
        · intro _
          by_cases h4 : existsPath env path = true
          · simp only [h1, h2, h3, h4, ↓reduceIte]
            exact writeResponse_contentLength _ _ _ _ (by decide) (by decide)
          · simp only [h1, h2, h3, h4, Bool.false_eq_true, ↓reduceIte]
            exact writeResponse_contentLength _ _ _ _ (by decide) (by decide)

/-! ## The buffer of `handleConnection` -/

/-- The part of the 1024-byte buffer that `parseMessage` looks at is what was
delivered, cut to 1024 bytes. -/
theorem buffer_take (data : Str) :
    (data.take 1024 ++ List.replicate (1024 - min data.length 1024) (Char.ofNat 0)).take
        (min data.length 1024)
      = data.take 1024 := by
  have h : min data.length 1024 = (data.take 1024).length := by
    rw [List.length_take, Nat.min_comm]
  rw [h, List.take_left]

/-- The length handed to `parseMessage` lies within the buffer. -/
theorem buffer_bound (data : Str) :
    min data.length 1024
      ≤ (data.take 1024
          ++ List.replicate (1024 - min data.length 1024) (Char.ofNat 0)).length := by
  simp only [List.length_append, List.length_take, List.length_replicate]
  omega

theorem handleConnection_eq (env : Env) (w : World) (data : Str) :
    handleConnection env w (some data)
      = match index (data.take 1024) crlfcrlf with
        | none => (.panicked, w)
        | some m =>
          processRequest env w (split ((data.take 1024).take m) crlf)
            ((data.take 1024).drop (m + 4)) := by
  simp only [handleConnection, parseMessage_eq _ _ (buffer_bound data), buffer_take]
  cases index (data.take 1024) crlfcrlf with
  | none => rfl
  | some m =>
    dsimp only
    rw [if_neg]
    exact fun h0 => split_ne_nil _ _ (List.length_eq_zero.1 h0)

/-! ## From the bytes of a request to `processRequest` -/

theorem parseMessage_of_request (l : Str) (ls : List Str) (body : Str)
    (h : ∀ x, x ∈ l :: ls → x ≠ [] ∧ ∀ c, c ∈ x → c ≠ '\r') (buf : Str) (n : Nat)
    (hn : n ≤ buf.length)
    (hbuf : buf.take n = join crlf (l :: ls) ++ crlfcrlf ++ body) :
    parseMessage buf n = .parsed (l :: ls) body := by
  have hidx := index_crlfcrlf_join l ls body h
  obtain ⟨h1, h2⟩ := parse_response l ls body h
  unfold responseLines at h1
  unfold responseBody at h2
  rw [hidx] at h1 h2
  dsimp only at h1 h2
  rw [parseMessage_eq buf n hn, hbuf, hidx]
  dsimp only
  rw [h1, h2]

/-- A well-formed request of at most 1024 bytes reaches `processRequest` with
its lines and its body. -/
theorem handleConnection_of_request (env : Env) (w : World) (l : Str) (ls : List Str)
    (body : Str) (h : ∀ x, x ∈ l :: ls → x ≠ [] ∧ ∀ c, c ∈ x → c ≠ '\r')
    (hfit : (join crlf (l :: ls) ++ crlfcrlf ++ body).length ≤ 1024) :
    handleConnection env w (some (join crlf (l :: ls) ++ crlfcrlf ++ body))
      = processRequest env w (l :: ls) body := by
  have hidx := index_crlfcrlf_join l ls body h
  obtain ⟨h1, h2⟩ := parse_response l ls body h
  unfold responseLines at h1
  unfold responseBody at h2
  rw [hidx] at h1 h2
  dsimp only at h1 h2
  rw [handleConnection_eq, List.take_of_length_le hfit, hidx]
  dsimp only
  rw [h1, h2]

/-! ## The steps of `processRequest` -/

/-- With three tokens on the request line, `processRequest` parses the header
lines and then switches on the method. -/
theorem processRequest_of_tokens (env : Env) (w : World) (requestLine : Str)
    (headers : List Str) (body method target version : Str)
    (hline : split requestLine " ".toList = [method, target, version]) :
    processRequest env w (requestLine :: headers) body
      = match parseHeaders headers [] with
        | none => (.exited .header, w)
        | some hm =>
          if method = "GET".toList then handleGetRequest env w (".".toList ++ target) hm
          else if method = "POST".toList then
            handlePostRequest env w (".".toList ++ target) body
          else (.exited .method, w) := by
  simp only [processRequest, hline]
  rfl

theorem processRequest_of_bad_line (env : Env) (w : World) (requestLine : Str)
    (headers : List Str) (body : Str)
    (hline : (split requestLine " ".toList).length ≠ 3) :
    processRequest env w (requestLine :: headers) body = (.exited .requestLine, w) := by
  simp only [processRequest, hline, ne_eq, not_false_eq_true, if_true]


/-! ## A handler that does not return leaves the world as it was -/

theorem handleEchoRequest_world (env : Env) (w : World) (parts : List Str) (hm : HeaderMap) :
    (handleEchoRequest env w parts hm).1 ≠ .returned →
    (handleEchoRequest env w parts hm).2 = w := by
  simp only [handleEchoRequest]
  by_cases h3 : parts.length ≠ 3
  · rw [if_pos h3]
    intro _
    rfl
  · rw [if_neg h3]
    cases parts[2]? with
    | none => intro _; rfl
    | some payload =>
      dsimp only
      by_cases hg : contains (hm.get "Accept-Encoding".toList) "gzip".toList = true
      · rw [if_pos hg]
        intro h
        exact absurd rfl h
      · rw [if_neg hg]
        intro h
        exact absurd rfl h

theorem handleGetRequest_world (env : Env) (w : World) (path : Str) (hm : HeaderMap) :
    (handleGetRequest env w path hm).1 ≠ .returned →
    (handleGetRequest env w path hm).2 = w := by
  have he := handleEchoRequest_world env w (split path "/".toList) hm
  simp only [handleGetRequest]
  cases (split path "/".toList)[1]? with
  | none => intro _; rfl
  | some seg =>
    dsimp only
    by_cases h1 : seg = "user-agent".toList
    · rw [if_pos h1]
      intro h
      exact absurd rfl h
    · rw [if_neg h1]
      by_cases h2 : seg = "echo".toList
      · rw [if_pos h2]
        exact he
      · rw [if_neg h2]
        by_cases h3 : seg = "files".toList
        · rw [if_pos h3]
          cases env.args[2]? with
          | none => intro _; rfl
          | some dir =>
            cases (split path "/".toList)[2]? with
            | none => intro _; rfl
            | some name =>
              dsimp only
              cases osReadFile w (dir ++ name) with
              | none => intro h; exact absurd rfl h
              | some data => intro h; exact absurd rfl h
        · rw [if_neg h3]
          by_cases h4 : existsPath env path = true
          · rw [if_pos h4]
            intro h
            exact absurd rfl h
          · rw [if_neg h4]
            intro h
            exact absurd rfl h

theorem handlePostRequest_world (env : Env) (w : World) (path body : Str) :
    (handlePostRequest env w path body).1 ≠ .returned →
    (handlePostRequest env w path body).2 = w := by
  simp only [handlePostRequest]
  cases (split path "/".toList)[1]? with
  | none => intro _; rfl
  | some seg =>
    dsimp only
    by_cases h1 : seg = "files".toList
    · rw [if_pos h1]
      cases env.args[2]? with
      | none => intro _; rfl
      | some dir =>
        cases (split path "/".toList)[2]? with
        | none => intro _; rfl
        | some name => intro h; exact absurd rfl h
    · rw [if_neg h1]
      intro _
      rfl

theorem processRequest_world (env : Env) (w : World) (headerParts : List Str) (body : Str) :
    (processRequest env w headerParts body).1 ≠ .returned →
    (processRequest env w headerParts body).2 = w := by
  cases headerParts with
  | nil => intro _; rfl
  | cons requestLine headers =>
    by_cases h3 : (split requestLine " ".toList).length = 3
    · obtain ⟨method, target, version, hsp⟩ := List.length_eq_three.1 h3
      rw [processRequest_of_tokens env w requestLine headers body method target version hsp]
      cases parseHeaders headers [] with
      | none => intro _; rfl
      | some hm =>
        dsimp only
        by_cases hg : method = "GET".toList
        · rw [if_pos hg]
          exact handleGetRequest_world env w _ hm
        · rw [if_neg hg]
          by_cases hp : method = "POST".toList
          · rw [if_pos hp]
            exact handlePostRequest_world env w _ body
          · rw [if_neg hp]
            intro _
            rfl
    · rw [processRequest_of_bad_line env w requestLine headers body h3]
      intro _
      rfl

theorem handleConnection_world (env : Env) (w : World) (incoming : Option Str) :
    (handleConnection env w incoming).1 ≠ .returned →
    (handleConnection env w incoming).2 = w := by
  cases incoming with
  | none => intro _; rfl
  | some data =>
    rw [handleConnection_eq]
    cases index (data.take 1024) crlfcrlf with
    | none => intro _; rfl
    | some m => exact processRequest_world env w _ _


/-! ## The echo route -/

theorem handleGetRequest_echo (env : Env) (w : World) (path : Str) (hm : HeaderMap)
    (hseg : (split path "/".toList)[1]? = some "echo".toList) :
    handleGetRequest env w path hm = handleEchoRequest env w (split path "/".toList) hm := by
  simp only [handleGetRequest, hseg]
  rfl

theorem handleEchoRequest_of_bad_length (env : Env) (w : World) (parts : List Str)
    (hm : HeaderMap) (h : parts.length ≠ 3) :
    handleEchoRequest env w parts hm = (.exited .echoParts, w) := by
  simp only [handleEchoRequest]
  rw [if_pos h]


/-! ## The default route of `handleGetRequest` -/

theorem handleGetRequest_default (env : Env) (w : World) (path seg : Str) (hm : HeaderMap)
    (hseg : (split path "/".toList)[1]? = some seg)
    (h1 : seg ≠ "user-agent".toList) (h2 : seg ≠ "echo".toList) (h3 : seg ≠ "files".toList) :
    handleGetRequest env w path hm
      = if existsPath env path then
          (.returned, writeResponse w "200 OK".toList "text/plain".toList none)
        else (.returned, writeResponse w "404 Not Found".toList "text/plain".toList none) := by
  simp only [handleGetRequest, hseg]
  rw [if_neg h1, if_neg h2, if_neg h3]

theorem existsPath_eq (env : Env) (path : Str) :
    existsPath env path = true ↔ env.stat path ≠ .notExist := by
  unfold existsPath
  cases env.stat path <;> simp


theorem handleEchoRequest_plain (env : Env) (files : List (Str × Str)) (a b p : Str)
    (hm : HeaderMap) (hg : contains (hm.get "Accept-Encoding".toList) "gzip".toList = false) :
    handleEchoRequest env ⟨[], files⟩ [a, b, p] hm
      = (.returned,
          ⟨["HTTP/1.1 200 OK\r\nContent-Type: text/plain\r\nContent-Length: ".toList
              ++ itoa p.length ++ "\r\n\r\n".toList ++ p], files⟩) := by
  simp only [handleEchoRequest, hg]
  rfl

theorem handleEchoRequest_gzip (env : Env) (files : List (Str × Str)) (a b p : Str)
    (hm : HeaderMap) (hg : contains (hm.get "Accept-Encoding".toList) "gzip".toList = true) :
    handleEchoRequest env ⟨[], files⟩ [a, b, p] hm
      = (.returned,
          ⟨["HTTP/1.1 200 OK\r\nContent-Encoding: gzip\r\n".toList
              ++ "Content-Type: text/plain\r\nContent-Length: ".toList
              ++ itoa (env.gzip p).length ++ "\r\n\r\n".toList ++ env.gzip p], files⟩) := by
  simp only [handleEchoRequest, hg]
  rfl

/-- The header lines and the body of the uncompressed echo response. -/
theorem echo_plain_parse (files : List (Str × Str)) (p : Str) :
    responseLines (World.wire
        ⟨["HTTP/1.1 200 OK\r\nContent-Type: text/plain\r\nContent-Length: ".toList
          ++ itoa p.length ++ "\r\n\r\n".toList ++ p], files⟩)
      = ["HTTP/1.1 200 OK".toList, "Content-Type: text/plain".toList,
          "Content-Length: ".toList ++ itoa p.length] ∧
    responseBody (World.wire
        ⟨["HTTP/1.1 200 OK\r\nContent-Type: text/plain\r\nContent-Length: ".toList
          ++ itoa p.length ++ "\r\n\r\n".toList ++ p], files⟩) = p := by
  have hwire : World.wire
        ⟨["HTTP/1.1 200 OK\r\nContent-Type: text/plain\r\nContent-Length: ".toList
          ++ itoa p.length ++ "\r\n\r\n".toList ++ p], files⟩
      = join crlf ["HTTP/1.1 200 OK".toList, "Content-Type: text/plain".toList,
          "Content-Length: ".toList ++ itoa p.length] ++ crlfcrlf ++ p := by
    simp only [World.wire, List.flatten_cons, List.flatten_nil, List.append_nil, join,
      List.append_assoc]
    rfl
  rw [hwire]
  apply parse_response
  intro x hx
  simp only [List.mem_cons, List.mem_singleton, List.not_mem_nil, or_false] at hx
  rcases hx with rfl | rfl | rfl
  · exact ⟨by decide, by decide⟩
  · exact ⟨by decide, by decide⟩
  · exact ⟨by simp, no_cr_append (by decide) (itoa_no_cr _)⟩

/-- The header lines and the body of the compressed echo response. -/
theorem echo_gzip_parse (files : List (Str × Str)) (g : Str) :
    responseLines (World.wire
        ⟨["HTTP/1.1 200 OK\r\nContent-Encoding: gzip\r\n".toList
          ++ "Content-Type: text/plain\r\nContent-Length: ".toList
          ++ itoa g.length ++ "\r\n\r\n".toList ++ g], files⟩)
      = ["HTTP/1.1 200 OK".toList, "Content-Encoding: gzip".toList,
          "Content-Type: text/plain".toList, "Content-Length: ".toList ++ itoa g.length] ∧
    responseBody (World.wire
        ⟨["HTTP/1.1 200 OK\r\nContent-Encoding: gzip\r\n".toList
          ++ "Content-Type: text/plain\r\nContent-Length: ".toList
          ++ itoa g.length ++ "\r\n\r\n".toList ++ g], files⟩) = g := by
  have hwire : World.wire
        ⟨["HTTP/1.1 200 OK\r\nContent-Encoding: gzip\r\n".toList
          ++ "Content-Type: text/plain\r\nContent-Length: ".toList
          ++ itoa g.length ++ "\r\n\r\n".toList ++ g], files⟩
      = join crlf ["HTTP/1.1 200 OK".toList, "Content-Encoding: gzip".toList,
          "Content-Type: text/plain".toList, "Content-Length: ".toList ++ itoa g.length]
        ++ crlfcrlf ++ g := by
    simp only [World.wire, List.flatten_cons, List.flatten_nil, List.append_nil, join,
      List.append_assoc]
    rfl
  rw [hwire]
  apply parse_response
  intro x hx
  simp only [List.mem_cons, List.mem_singleton, List.not_mem_nil, or_false] at hx
  rcases hx with rfl | rfl | rfl | rfl
  · exact ⟨by decide, by decide⟩
  · exact ⟨by decide, by decide⟩
  · exact ⟨by decide, by decide⟩
  · exact ⟨by simp, no_cr_append (by decide) (itoa_no_cr _)⟩


/-! ## The header lines of every response -/

/-- The header lines and body read off the wire give the wire back. -/
theorem join_responseLines (wire : Str) (h : crlfcrlf <:+: wire) :
    join crlf (responseLines wire) ++ crlfcrlf ++ responseBody wire = wire := by
  obtain ⟨m, hm⟩ := index_some_of_occurrence h
  unfold responseLines responseBody
  rw [hm]
  dsimp only
  rw [join_split]
  exact take_sep_drop_of_index hm

theorem handleEchoRequest_lines (env : Env) (files : List (Str × Str)) (parts : List Str)
    (hm : HeaderMap) :
    (handleEchoRequest env ⟨[], files⟩ parts hm).1 = .returned →
    (contains (hm.get "Accept-Encoding".toList) "gzip".toList = true ∧
      responseLines (handleEchoRequest env ⟨[], files⟩ parts hm).2.wire
        = ["HTTP/1.1 200 OK".toList, "Content-Encoding: gzip".toList,
            "Content-Type: text/plain".toList,
            "Content-Length: ".toList ++ itoa
              (responseBody (handleEchoRequest env ⟨[], files⟩ parts hm).2.wire).length]) ∨
    (contains (hm.get "Accept-Encoding".toList) "gzip".toList = false ∧
      responseLines (handleEchoRequest env ⟨[], files⟩ parts hm).2.wire
        = ["HTTP/1.1 200 OK".toList, "Content-Type: text/plain".toList,
            "Content-Length: ".toList ++ itoa
              (responseBody (handleEchoRequest env ⟨[], files⟩ parts hm).2.wire).length]) := by
  by_cases h3 : parts.length ≠ 3
  · rw [handleEchoRequest_of_bad_length env _ parts hm h3]
    intro h
    cases h
  · obtain ⟨a, b, p, hsp⟩ := List.length_eq_three.1 (not_not.1 h3)
    subst hsp
    intro _
    cases hg : contains (hm.get "Accept-Encoding".toList) "gzip".toList with
    | false =>
      right
      rw [handleEchoRequest_plain env files a b p hm hg]
      obtain ⟨h1, h2⟩ := echo_plain_parse files p
      exact ⟨rfl, by rw [h2]; exact h1⟩
    | true =>
      left
      rw [handleEchoRequest_gzip env files a b p hm hg]
      obtain ⟨h1, h2⟩ := echo_gzip_parse files (env.gzip p)
      exact ⟨rfl, by rw [h2]; exact h1⟩

theorem writeResponse_lines (files : List (Str × Str)) (status contentType : Str)
    (body : Option Str) (hs : ∀ c, c ∈ status → c ≠ '\r')
    (hc : ∀ c, c ∈ contentType → c ≠ '\r') :
    ∃ st ct, responseLines (writeResponse ⟨[], files⟩ status contentType body).wire
      = ["HTTP/1.1 ".toList ++ st, "Content-Type: ".toList ++ ct,
          "Content-Length: ".toList ++ itoa
            (responseBody (writeResponse ⟨[], files⟩ status contentType body).wire).length] := by
  obtain ⟨h1, h2⟩ := writeResponse_lines_body files status contentType body hs hc
  exact ⟨status, contentType, by rw [h2]; exact h1⟩

/-- The header lines of an answered `GET` request: status line, `Content-Type`,
`Content-Length`, with `Content-Encoding: gzip` between the status line and
`Content-Type` exactly on the echo route with `gzip` accepted. -/
theorem handleGetRequest_lines (env : Env) (files : List (Str × Str)) (path : Str)
    (hm : HeaderMap) :
    (handleGetRequest env ⟨[], files⟩ path hm).1 = .returned →
    (((split path "/".toList)[1]? = some "echo".toList ∧
        contains (hm.get "Accept-Encoding".toList) "gzip".toList = true) ∧
      responseLines (handleGetRequest env ⟨[], files⟩ path hm).2.wire
        = ["HTTP/1.1 200 OK".toList, "Content-Encoding: gzip".toList,
            "Content-Type: text/plain".toList,
            "Content-Length: ".toList ++ itoa
              (responseBody (handleGetRequest env ⟨[], files⟩ path hm).2.wire).length]) ∨
    (¬ ((split path "/".toList)[1]? = some "echo".toList ∧
        contains (hm.get "Accept-Encoding".toList) "gzip".toList = true) ∧
      ∃ st ct, responseLines (handleGetRequest env ⟨[], files⟩ path hm).2.wire
        = ["HTTP/1.1 ".toList ++ st, "Content-Type: ".toList ++ ct,
            "Content-Length: ".toList ++ itoa
              (responseBody (handleGetRequest env ⟨[], files⟩ path hm).2.wire).length]) := by
  have he := handleEchoRequest_lines env files (split path "/".toList) hm
  simp only [handleGetRequest]
  cases (split path "/".toList)[1]? with
  | none => intro h; cases h
  | some seg =>
    dsimp only
    by_cases h1 : seg = "user-agent".toList
    · rw [if_pos h1]
      intro _
      right
      refine ⟨fun h => ?_, writeResponse_lines _ _ _ _ (by decide) (by decide)⟩
      rw [h1] at h
      exact absurd (Option.some.inj h.1) (by decide)
    · rw [if_neg h1]
      by_cases h2 : seg = "echo".toList
      · rw [if_pos h2]
        intro hret
        rcases he hret with ⟨hg, hl⟩ | ⟨hg, hl⟩
        · left
          exact ⟨⟨by rw [h2], hg⟩, hl⟩
        · right
          refine ⟨fun h => ?_, "200 OK".toList, "text/plain".toList, hl⟩
          rw [hg] at h
          exact absurd h.2 (by decide)
      · rw [if_neg h2]
        have hne : ¬ (some seg = some "echo".toList ∧
            contains (hm.get "Accept-Encoding".toList) "gzip".toList = true) :=
          fun h => h2 (Option.some.inj h.1)
        by_cases h3 : seg = "files".toList
        · rw [if_pos h3]
          cases env.args[2]? with
          | none => intro h; cases h
          | some dir =>
            cases (split path "/".toList)[2]? with
            | none => intro h; cases h
            | some name =>
              dsimp only
              intro _
              right
              cases osReadFile ⟨[], files⟩ (dir ++ name) with
              | none => exact ⟨hne, writeResponse_lines _ _ _ _ (by decide) (by decide)⟩
              | some data => exact ⟨hne, writeResponse_lines _ _ _ _ (by decide) (by decide)⟩
        · rw [if_neg h3]
          intro _
          right
          by_cases h4 : existsPath env path = true
          · rw [if_pos h4]
            exact ⟨hne, writeResponse_lines _ _ _ _ (by decide) (by decide)⟩
          · rw [if_neg h4]
            exact ⟨hne, writeResponse_lines _ _ _ _ (by decide) (by decide)⟩


theorem occurrence_of_responseLines (wire : Str) (h : responseLines wire ≠ []) :
    crlfcrlf <:+: wire := by
  unfold responseLines at h
  cases hi : index wire crlfcrlf with
  | none => rw [hi] at h; exact absurd rfl h
  | some m => exact (contains_iff _ _).1 (by unfold contains; rw [hi]; rfl)

theorem processRequest_post_files_wire (env : Env) (files : List (Str × Str))
    (requestLine : Str) (headers : List Str) (body version name base : Str) (hm : HeaderMap)
    (hline : split requestLine " ".toList = ["POST".toList, "/files/".toList ++ name, version])
    (hhdr : parseHeaders headers [] = some hm)
    (hname : ∀ c, c ∈ name → c ≠ '/') (hargs : env.args[2]? = some base) :
    (processRequest env ⟨[], files⟩ (requestLine :: headers) body).1 = .returned ∧
    (processRequest env ⟨[], files⟩ (requestLine :: headers) body).2.wire
      = "HTTP/1.1 201 Created\r\n\r\n".toList := by
  have hres : processRequest env ⟨[], files⟩ (requestLine :: headers) body
      = (.returned,
          connWrite
            (osWriteFile env (osCreate env ⟨[], files⟩ (base ++ name)) (base ++ name) body)
            "HTTP/1.1 201 Created\r\n\r\n".toList) := by
    rw [processRequest_post env _ requestLine headers body _ version hm hline hhdr]
    exact handlePostRequest_files env _ name body base hname hargs
  refine ⟨by rw [hres], ?_⟩
  rw [hres]
  by_cases hw : env.writable (base ++ name) = true
  · simp only [World.wire, connWrite, osWriteFile, osCreate, hw, if_true, List.nil_append,
      List.flatten_cons, List.flatten_nil, List.append_nil]
  · simp only [World.wire, connWrite, osWriteFile, osCreate, hw, Bool.false_eq_true,
      if_false, List.nil_append, List.flatten_cons, List.flatten_nil, List.append_nil]


/-! ## The segments of a path that begins with `/` -/

theorem slash_occurs_iff (s : Str) : "/".toList <:+: s ↔ '/' ∈ s := by
  constructor
  · rintro ⟨a, b, rfl⟩
    simp
  · intro h
    obtain ⟨a, b, rfl⟩ := List.append_of_mem h
    exact ⟨a, b, by simp⟩

theorem slash_ne_nil : "/".toList ≠ [] := by decide

/-- The path `"." + "/" + rest` splits into `"."` and the segments of `rest`. -/
theorem split_dot_slash (rest : Str) :
    split (".".toList ++ ("/".toList ++ rest)) "/".toList
      = ".".toList :: split rest "/".toList := by
  have hidx : index (".".toList ++ ("/".toList ++ rest)) "/".toList = some 1 := by
    have h := index_append_of_no_head '/' [] ".".toList ("/".toList ++ rest) (by decide)
    have h2 : index ("/".toList ++ rest) "/".toList = some 0 := index_self_append _ _
    have e : ('/' :: ([] : Str)) = "/".toList := rfl
    rw [e] at h
    rw [h, h2]
    rfl
  rw [split_of_index_some slash_ne_nil hidx]
  rfl

theorem split_second_isSome_iff (s : Str) :
    ((split s "/".toList)[1]?).isSome ↔ '/' ∈ s := by
  rw [← slash_occurs_iff]
  cases h : index s "/".toList with
  | none =>
    rw [split_of_index_none slash_ne_nil h]
    have hn : ¬ "/".toList <:+: s := by
      intro hi
      obtain ⟨m, hm⟩ := index_some_of_occurrence hi
      rw [h] at hm
      cases hm
    simp only [hn, iff_false]
    intro h0
    cases h0
  | some m =>
    rw [split_of_index_some slash_ne_nil h]
    have hy : "/".toList <:+: s := (contains_iff _ _).1 (by unfold contains; rw [h]; rfl)
    simp only [hy, iff_true, List.getElem?_cons_succ]
    cases hs : split (s.drop (m + "/".toList.length)) "/".toList with
    | nil => exact absurd hs (split_ne_nil _ _)
    | cons a t => simp only [List.getElem?_cons_zero, Option.isSome_some]

theorem split_head_isSome (s sep : Str) : ((split s sep)[0]?).isSome := by
  cases hs : split s sep with
  | nil => exact absurd hs (split_ne_nil _ _)
  | cons a t => simp only [List.getElem?_cons_zero, Option.isSome_some]

/-- A path without `/` is its own single segment. -/
theorem split_of_no_slash (s : Str) (h : '/' ∉ s) : split s "/".toList = [s] := by
  apply split_of_index_none slash_ne_nil
  apply index_none_of_no_occurrence
  rw [slash_occurs_iff]
  exact h

/-! ## When a handler panics -/

theorem handleEchoRequest_no_panic (env : Env) (w : World) (parts : List Str)
    (hm : HeaderMap) : (handleEchoRequest env w parts hm).1 ≠ .panicked := by
  by_cases h3 : parts.length ≠ 3
  · rw [handleEchoRequest_of_bad_length env w parts hm h3]
    intro h
    cases h
  · obtain ⟨a, b, p, hsp⟩ := List.length_eq_three.1 (not_not.1 h3)
    subst hsp
    simp only [handleEchoRequest]
    rw [if_neg h3]
    simp only [List.getElem?_cons_succ, List.getElem?_cons_zero]
    by_cases hg : contains (hm.get "Accept-Encoding".toList) "gzip".toList = true
    · rw [if_pos hg]
      intro h
      cases h
    · rw [if_neg hg]
      intro h
      cases h

/-- With the base directory on the command line, `handleGetRequest` panics
exactly on the files route without a second segment. -/
theorem handleGetRequest_panicked_iff (env : Env) (w : World) (path seg base : Str)
    (hm : HeaderMap) (hargs : env.args[2]? = some base)
    (hseg : (split path "/".toList)[1]? = some seg) :
    (handleGetRequest env w path hm).1 = .panicked ↔
      seg = "files".toList ∧ (split path "/".toList)[2]? = none := by
  have he := handleEchoRequest_no_panic env w (split path "/".toList) hm
  simp only [handleGetRequest, hseg, hargs]
  by_cases h1 : seg = "user-agent".toList
  · rw [if_pos h1]
    constructor
    · intro h; cases h
    · rintro ⟨h, _⟩
      rw [h1] at h
      exact absurd h (by decide)
  · rw [if_neg h1]
    by_cases h2 : seg = "echo".toList
    · rw [if_pos h2]
      constructor
      · intro h; exact absurd h he
      · rintro ⟨h, _⟩
        rw [h2] at h
        exact absurd h (by decide)
    · rw [if_neg h2]
      by_cases h3 : seg = "files".toList
      · rw [if_pos h3]
        cases (split path "/".toList)[2]? with
        | none => exact ⟨fun _ => ⟨h3, rfl⟩, fun _ => rfl⟩
        | some name =>
          dsimp only
          constructor
          · cases osReadFile w (base ++ name) with
            | none => intro h; cases h
            | some data => intro h; cases h
          · rintro ⟨_, h⟩
            cases h
      · rw [if_neg h3]
        constructor
        · by_cases h4 : existsPath env path = true
          · rw [if_pos h4]
            intro h
            cases h
          · rw [if_neg h4]
            intro h
            cases h
        · rintro ⟨h, _⟩
          exact absurd h h3

theorem handlePostRequest_panicked_iff (env : Env) (w : World) (path seg base body : Str)
    (hargs : env.args[2]? = some base)
    (hseg : (split path "/".toList)[1]? = some seg) :
    (handlePostRequest env w path body).1 = .panicked ↔
      seg = "files".toList ∧ (split path "/".toList)[2]? = none := by
  simp only [handlePostRequest, hseg, hargs]
  by_cases h3 : seg = "files".toList
  · rw [if_pos h3]
    cases (split path "/".toList)[2]? with
    | none => exact ⟨fun _ => ⟨h3, rfl⟩, fun _ => rfl⟩
    | some name =>
      dsimp only
      constructor
      · intro h; cases h
      · rintro ⟨_, h⟩
        cases h
  · rw [if_neg h3]
    constructor
    · intro h; cases h
    · rintro ⟨h, _⟩
      exact absurd h h3


theorem files_without_second_segment_iff (rest seg : Str)
    (hseg : (split (".".toList ++ ("/".toList ++ rest)) "/".toList)[1]? = some seg) :
    (seg = "files".toList ∧
        (split (".".toList ++ ("/".toList ++ rest)) "/".toList)[2]? = none) ↔
      "/".toList ++ rest = "/files".toList := by
  rw [split_dot_slash] at hseg ⊢
  simp only [List.getElem?_cons_succ] at hseg ⊢
  constructor
  · rintro ⟨hf, h2⟩
    have hno : '/' ∉ rest := by
      intro hin
      have := (split_second_isSome_iff rest).2 hin
      rw [h2] at this
      cases this
    rw [split_of_no_slash rest hno] at hseg
    simp only [List.getElem?_cons_zero, Option.some.injEq] at hseg
    rw [hseg, hf]
    rfl
  · intro h
    have hr : rest = "files".toList := by
      have h2 : '/' :: rest = '/' :: "files".toList := h
      exact (List.cons.inj h2).2
    subst hr
    have hs : some "files".toList = some seg := by
      rw [← hseg]
      decide
    exact ⟨(Option.some.inj hs).symm, by decide⟩


/-! ## Maps kept as association lists -/

theorem lookup_filter_ne (l : List (Str × Str)) (k p : Str) (h : p ≠ k) :
    (l.filter (fun e => e.1 ≠ k)).lookup p = l.lookup p := by
  induction l with
  | nil => rfl
  | cons e t ih =>
    obtain ⟨a, b⟩ := e
    by_cases hak : a = k
    · subst hak
      have hpa : (p == a) = false := by
        rw [beq_eq_false_iff_ne]; exact h
      simp only [List.filter, ne_eq, not_true_eq_false, decide_False, List.lookup, hpa, ih]
    · have hd : decide (a ≠ k) = true := by simpa using hak
      by_cases hpa : p = a
      · subst hpa
        simp only [List.filter, hd, List.lookup, beq_self_eq_true]
      · have hb : (p == a) = false := by
          rw [beq_eq_false_iff_ne]; exact hpa
        simp only [List.filter, hd, List.lookup, hb, ih]

theorem lookup_putFile_ne (files : List (Str × Str)) (path data p : Str) (h : p ≠ path) :
    (putFile files path data).lookup p = files.lookup p := by
  have hb : (p == path) = false := by
    rw [beq_eq_false_iff_ne]; exact h
  simp only [putFile, List.lookup, hb]
  exact lookup_filter_ne files path p h

theorem lookup_set (m : HeaderMap) (k v p : Str) :
    (m.set k v).lookup p = if p = k then some v else m.lookup p := by
  by_cases h : p = k
  · subst h
    simp only [HeaderMap.set, List.lookup, beq_self_eq_true, if_true]
  · have hb : (p == k) = false := by
      rw [beq_eq_false_iff_ne]; exact h
    simp only [HeaderMap.set, List.lookup, hb, if_neg h]
    exact lookup_filter_ne m k p h

/-- After `os.Create` and `os.WriteFile` on one path, every other path reads as
before. -/
theorem osReadFile_other_path (env : Env) (w : World) (path data p : Str) (h : p ≠ path) :
    osReadFile (osWriteFile env (osCreate env w path) path data) p = osReadFile w p := by
  by_cases hw : env.writable path = true
  · simp only [osReadFile, osWriteFile, osCreate, hw, if_true]
    rw [lookup_putFile_ne _ _ _ _ h, lookup_putFile_ne _ _ _ _ h]
  · simp only [osReadFile, osWriteFile, osCreate, hw, Bool.false_eq_true, if_false]

/-! ## The files routes -/

theorem split_append_of_no_head (a : Char) (sep2 l rest : Str) (hl : ∀ c, c ∈ l → c ≠ a) :
    split (l ++ ((a :: sep2) ++ rest)) (a :: sep2) = l :: split rest (a :: sep2) := by
  have hsep : a :: sep2 ≠ [] := by simp
  have hidx : index (l ++ ((a :: sep2) ++ rest)) (a :: sep2) = some l.length := by
    rw [index_append_of_no_head a sep2 l _ hl, index_self_append]
    simp
  rw [split_of_index_some hsep hidx]
  have h1 : (l ++ ((a :: sep2) ++ rest)).take l.length = l := by simp
  have h2 : (l ++ ((a :: sep2) ++ rest)).drop (l.length + (a :: sep2).length) = rest := by
    rw [← List.drop_drop]
    simp
  rw [h1, h2]

theorem handlePostRequest_files_segment (env : Env) (w : World) (path s base body : Str)
    (hargs : env.args[2]? = some base)
    (hseg1 : (split path "/".toList)[1]? = some "files".toList)
    (hseg2 : (split path "/".toList)[2]? = some s) :
    handlePostRequest env w path body
      = (.returned,
          connWrite (osWriteFile env (osCreate env w (base ++ s)) (base ++ s) body)
            "HTTP/1.1 201 Created\r\n\r\n".toList) := by
  simp only [handlePostRequest, hseg1, hseg2, hargs]
  rfl

theorem handleGetRequest_files_segment (env : Env) (w : World) (path s base : Str)
    (hm : HeaderMap) (hargs : env.args[2]? = some base)
    (hseg1 : (split path "/".toList)[1]? = some "files".toList)
    (hseg2 : (split path "/".toList)[2]? = some s) :
    handleGetRequest env w path hm
      = match osReadFile w (base ++ s) with
        | none =>
          (.returned, writeResponse w "404 Not Found".toList
            "application/octet-stream".toList none)
        | some data =>
          (.returned, writeResponse w "200 OK".toList
            "application/octet-stream".toList (some data)) := by
  simp only [handleGetRequest, hseg1, hseg2, hargs]
  rfl


/-- The segments of `"." + "/files/" + x`: `"."`, `files`, then those of `x`. -/
theorem split_files_path_more (x : Str) :
    split (".".toList ++ ("/files/".toList ++ x)) "/".toList
      = ".".toList :: "files".toList :: split x "/".toList := by
  have e : ".".toList ++ ("/files/".toList ++ x)
      = ".".toList ++ ("/".toList ++ ("files".toList ++ ("/".toList ++ x))) := rfl
  rw [e, split_dot_slash]
  have h := split_append_of_no_head '/' [] "files".toList x (by decide)
  exact congrArg _ h


/-! ## The map built by `parseHeaders` -/

theorem parseHeaders_cons_some (part : Str) (rest : List Str) (m0 hm : HeaderMap)
    (h : parseHeaders (part :: rest) m0 = some hm) :
    ∃ k v, split part ": ".toList = [k, v] ∧ parseHeaders rest (m0.set k v) = some hm := by
  by_cases h2 : (split part ": ".toList).length = 2
  · obtain ⟨k, v, hkv⟩ := List.length_eq_two.1 h2
    refine ⟨k, v, hkv, ?_⟩
    simp only [parseHeaders, hkv] at h
    exact h
  · simp only [parseHeaders, h2, ne_eq, not_false_eq_true, if_true] at h
    cases h

theorem lastValue_isSome_iff (pairs : List (Str × Str)) (k : Str) :
    (lastValue pairs k).isSome ↔ k ∈ pairs.map Prod.fst := by
  induction pairs with
  | nil => simp [lastValue]
  | cons e t ih =>
    obtain ⟨k2, v⟩ := e
    simp only [lastValue, List.map_cons, List.mem_cons]
    cases hl : lastValue t k with
    | some x =>
      rw [hl] at ih
      have hin : k ∈ t.map Prod.fst := ih.1 rfl
      simp only [Option.isSome_some, true_iff]
      exact Or.inr hin
    | none =>
      rw [hl] at ih
      have hnin : k ∉ t.map Prod.fst := fun hin => by
        have := ih.2 hin
        cases this
      by_cases hk : k2 = k
      · simp only [hk, if_true, Option.isSome_some, true_iff, true_or]
      · simp only [hk, if_false, Option.isSome_none, Bool.false_eq_true, false_iff, not_or]
        exact ⟨fun h => hk h.symm, hnin⟩

/-- The map `parseHeaders` returns, key by key: the value of the last accepted
line with that name, and for other keys what the map held before. -/
theorem parseHeaders_lookup (headers : List Str) :
    ∀ (m0 hm : HeaderMap), parseHeaders headers m0 = some hm →
      ∃ pairs : List (Str × Str),
        List.Forall₂ (fun line p => split line ": ".toList = [p.1, p.2]) headers pairs ∧
        ∀ k, hm.lookup k
          = match lastValue pairs k with
            | some v => some v
            | none => m0.lookup k := by
  induction headers with
  | nil =>
    intro m0 hm h
    simp only [parseHeaders, Option.some.injEq] at h
    subst h
    exact ⟨[], List.Forall₂.nil, fun k => rfl⟩
  | cons part rest ih =>
    intro m0 hm h
    obtain ⟨k0, v0, hkv, hrest⟩ := parseHeaders_cons_some part rest m0 hm h
    obtain ⟨pairs, hf, hl⟩ := ih (m0.set k0 v0) hm hrest
    refine ⟨(k0, v0) :: pairs, List.Forall₂.cons hkv hf, ?_⟩
    intro k
    rw [hl k]
    simp only [lastValue]
    cases lastValue pairs k with
    | some x => rfl
    | none =>
      dsimp only
      rw [lookup_set]
      by_cases hk : k = k0
      · rw [if_pos hk, if_pos hk.symm]
      · rw [if_neg hk, if_neg (fun h => hk h.symm)]


/-! ## `processRequest` by its stages -/

set_option maxRecDepth 20000 in
/-- C1, as stated, fails on `POST /files/<name>`: the request is answered, and
the bytes written are `HTTP/1.1 201 Created\r\n\r\n`, with no `Content-Length`
header among the lines before the blank line. -/
theorem post_response_lacks_content_length :
    (handleConnection sampleEnv emptyWorld
      (some "POST /files/a HTTP/1.1\r\nContent-Length: 2\r\n\r\nhi".toList)).1 = .returned ∧
    (handleConnection sampleEnv emptyWorld
      (some "POST /files/a HTTP/1.1\r\nContent-Length: 2\r\n\r\nhi".toList)).2.wire
        = "HTTP/1.1 201 Created\r\n\r\n".toList ∧
    contentLengthMatchesBody (handleConnection sampleEnv emptyWorld
      (some "POST /files/a HTTP/1.1\r\nContent-Length: 2\r\n\r\nhi".toList)).2.wire = false := by
  decide

/-- C1, as the code has it: every `GET` request that is answered gets a response
with a `Content-Length` header whose decimal value is the number of body bytes
after the blank line; the answer to `POST /files/<name>` is the fixed text
`HTTP/1.1 201 Created\r\n\r\n`, which has the status line as its only header
line, no `Content-Length` header, and no body byte. -/
theorem content_length_counts_body (env : Env) (files : List (Str × Str))
    (requestLine : Str) (headers : List Str) (body version : Str) (hm : HeaderMap)
    (hhdr : parseHeaders headers [] = some hm) :
    (∀ target, split requestLine " ".toList = ["GET".toList, target, version] →
      (processRequest env ⟨[], files⟩ (requestLine :: headers) body).1 = .returned →
      contentLengthMatchesBody
        (processRequest env ⟨[], files⟩ (requestLine :: headers) body).2.wire = true) ∧
    (∀ name base,
      split requestLine " ".toList = ["POST".toList, "/files/".toList ++ name, version] →
      (∀ c, c ∈ name → c ≠ '/') → env.args[2]? = some base →
      (processRequest env ⟨[], files⟩ (requestLine :: headers) body).1 = .returned ∧
      (processRequest env ⟨[], files⟩ (requestLine :: headers) body).2.wire
        = "HTTP/1.1 201 Created\r\n\r\n".toList ∧
      responseLines (processRequest env ⟨[], files⟩ (requestLine :: headers) body).2.wire
        = ["HTTP/1.1 201 Created".toList] ∧
      responseBody (processRequest env ⟨[], files⟩ (requestLine :: headers) body).2.wire
        = [] ∧
      contentLengthMatchesBody
        (processRequest env ⟨[], files⟩ (requestLine :: headers) body).2.wire = false) := by
  constructor
  · intro target hline hret
    rw [processRequest_get env _ requestLine headers body target version hm hline hhdr]
      at hret ⊢
    exact handleGetRequest_contentLength env files _ hm hret
  · intro name base hline hname hargs
    have hres : processRequest env ⟨[], files⟩ (requestLine :: headers) body
        = (.returned,
            connWrite
              (osWriteFile env (osCreate env ⟨[], files⟩ (base ++ name)) (base ++ name) body)
              "HTTP/1.1 201 Created\r\n\r\n".toList) := by
      rw [processRequest_post env _ requestLine headers body _ version hm hline hhdr]
      exact handlePostRequest_files env _ name body base hname hargs
    have hwire : (processRequest env ⟨[], files⟩ (requestLine :: headers) body).2.wire
        = "HTTP/1.1 201 Created\r\n\r\n".toList := by
      rw [hres]
      by_cases hw : env.writable (base ++ name) = true
      · simp only [World.wire, connWrite, osWriteFile, osCreate, hw, if_true, List.nil_append,
          List.flatten_cons, List.flatten_nil, List.append_nil]
      · simp only [World.wire, connWrite, osWriteFile, osCreate, hw, Bool.false_eq_true,
          if_false, List.nil_append, List.flatten_cons, List.flatten_nil, List.append_nil]
    refine ⟨by rw [hres], hwire, ?_, ?_, ?_⟩
    · rw [hwire]; decide
    · rw [hwire]; decide
    · rw [hwire]; decide

/-- Witness for C1: `GET /` is answered `404 Not Found` with `Content-Length: 0`
and an empty body. -/
theorem content_length_counts_body_witness :
    contentLengthMatchesBody
      (processRequest sampleEnv ⟨[], []⟩ ["GET / HTTP/1.1".toList, "Host: x".toList] []).2.wire
      = true :=
  (content_length_counts_body sampleEnv [] "GET / HTTP/1.1".toList ["Host: x".toList] []
    "HTTP/1.1".toList [("Host".toList, "x".toList)] (by decide)).1 "/".toList (by decide)
    (by decide)

/-- C2: when `n` is a length within the buffer and `buf[:n]` contains the blank
line `"\r\n\r\n"`, `parseMessage`
returns header lines and a body that split the buffer at the first blank line:
the lines joined with `"\r\n"`, then the blank line, then the body are `buf[:n]`;
the blank line found is the first one (its index is the length of the joined
header block, which itself contains no blank line); the first line returned is
the request line, the text of the buffer before its first `"\r\n"`; and no line
returned contains `"\r\n"`. -/
theorem parseMessage_splits_at_first_blank_line (buf : Str) (n : Nat)
    (hn : n ≤ buf.length) (h : crlfcrlf <:+: buf.take n) :
    ∃ requestLine headers body,
      parseMessage buf n = .parsed (requestLine :: headers) body ∧
      join crlf (requestLine :: headers) ++ crlfcrlf ++ body = buf.take n ∧
      index (buf.take n) crlfcrlf = some (join crlf (requestLine :: headers)).length ∧
      ¬ crlfcrlf <:+: join crlf (requestLine :: headers) ∧
      (∃ k, index (buf.take n) crlf = some k ∧ requestLine = (buf.take n).take k) ∧
      ∀ l, l ∈ requestLine :: headers → ¬ crlf <:+: l := by
  obtain ⟨m, hm⟩ := index_some_of_occurrence h
  have hle := index_add_length_le hm
  have hjoin := join_split ((buf.take n).take m) crlf
  have hhead := head_split_crlf ((buf.take n).take m)
  have hmem : ∀ l, l ∈ split ((buf.take n).take m) crlf → ¬ crlf <:+: l :=
    fun l hl => no_separator_in_piece crlf_ne_nil hl
  have hlen : ((buf.take n).take m).length = m := by
    rw [List.length_take]; omega
  cases hs : split ((buf.take n).take m) crlf with
  | nil => exact absurd hs (split_ne_nil _ _)
  | cons requestLine headers =>
    rw [hs] at hjoin hhead hmem
    refine ⟨requestLine, headers, (buf.take n).drop (m + 4), ?_, ?_, ?_, ?_, ?_, hmem⟩
    · rw [parseMessage_eq buf n hn, hm]
      dsimp only
      rw [hs]
    · rw [hjoin]
      exact take_sep_drop_of_index hm
    · rw [hjoin, hlen, hm]
    · rw [hjoin]
      intro hi
      obtain ⟨j, hj⟩ := index_some_of_occurrence hi
      rw [index_take_eq_none crlfcrlf_ne_nil hm] at hj
      cases hj
    · refine ⟨_, index_crlf_of_index_crlfcrlf hm, ?_⟩
      simp only [List.head?_cons, Option.some.injEq] at hhead
      rw [hhead, hlen]
      cases hk : index ((buf.take n).take m) crlf with
      | none => simp
      | some k =>
        have hkl := index_add_length_le hk
        rw [hlen] at hkl
        simp only [Option.getD_some]
        rw [List.take_take, Nat.min_eq_left (by omega)]

/-- Witness for C2: a request with one header and a body that itself holds a
blank line. -/
theorem parseMessage_splits_at_first_blank_line_witness :
    ∃ requestLine headers body,
      parseMessage "GET / HTTP/1.1\r\nHost: x\r\n\r\nab\r\n\r\ncd".toList 30
        = .parsed (requestLine :: headers) body ∧
      join crlf (requestLine :: headers) ++ crlfcrlf ++ body
        = "GET / HTTP/1.1\r\nHost: x\r\n\r\nab\r\n\r\ncd".toList.take 30 ∧
      index ("GET / HTTP/1.1\r\nHost: x\r\n\r\nab\r\n\r\ncd".toList.take 30) crlfcrlf
        = some (join crlf (requestLine :: headers)).length ∧
      ¬ crlfcrlf <:+: join crlf (requestLine :: headers) ∧
      (∃ k, index ("GET / HTTP/1.1\r\nHost: x\r\n\r\nab\r\n\r\ncd".toList.take 30) crlf = some k ∧
        requestLine = ("GET / HTTP/1.1\r\nHost: x\r\n\r\nab\r\n\r\ncd".toList.take 30).take k) ∧
      ∀ l, l ∈ requestLine :: headers → ¬ crlf <:+: l :=
  parseMessage_splits_at_first_blank_line "GET / HTTP/1.1\r\nHost: x\r\n\r\nab\r\n\r\ncd".toList 30
    (by decide) ((contains_iff _ _).1 (by decide))

/-- C5: a `GET /echo/<p>` request (`p` one path segment) whose header map has no
`Accept-Encoding` entry, or one whose value does not contain `gzip`, is answered
with one write of exactly
`HTTP/1.1 200 OK\r\nContent-Type: text/plain\r\nContent-Length: <len p>\r\n\r\n`
followed by `p` unmodified; the header lines are the status line, `Content-Type`
and `Content-Length` (no `Content-Encoding`), the body is `p`, and for
`p = "hello"` the length written is `5`. -/
theorem echo_plain_response (env : Env) (files : List (Str × Str)) (requestLine : Str)
    (headers : List Str) (body version p : Str) (hm : HeaderMap)
    (hline : split requestLine " ".toList = ["GET".toList, "/echo/".toList ++ p, version])
    (hhdr : parseHeaders headers [] = some hm)
    (hp : ∀ c, c ∈ p → c ≠ '/')
    (hae : hm.lookup "Accept-Encoding".toList = none ∨
      ∃ v, hm.lookup "Accept-Encoding".toList = some v ∧ ¬ "gzip".toList <:+: v) :
    processRequest env ⟨[], files⟩ (requestLine :: headers) body
      = (.returned,
          ⟨["HTTP/1.1 200 OK\r\nContent-Type: text/plain\r\nContent-Length: ".toList
              ++ itoa p.length ++ "\r\n\r\n".toList ++ p], files⟩) ∧
    responseLines (processRequest env ⟨[], files⟩ (requestLine :: headers) body).2.wire
      = ["HTTP/1.1 200 OK".toList, "Content-Type: text/plain".toList,
          "Content-Length: ".toList ++ itoa p.length] ∧
    responseBody (processRequest env ⟨[], files⟩ (requestLine :: headers) body).2.wire = p ∧
    (p = "hello".toList → itoa p.length = "5".toList) := by
  have hres : processRequest env ⟨[], files⟩ (requestLine :: headers) body
      = (.returned,
          ⟨["HTTP/1.1 200 OK\r\nContent-Type: text/plain\r\nContent-Length: ".toList
              ++ itoa p.length ++ "\r\n\r\n".toList ++ p], files⟩) := by
    rw [processRequest_get env _ requestLine headers body _ version hm hline hhdr]
    simp only [handleGetRequest, split_echo_path p hp, handleEchoRequest,
      contains_gzip_eq_false hm hae]
    rfl
  have hwire : (processRequest env ⟨[], files⟩ (requestLine :: headers) body).2.wire
      = join crlf ["HTTP/1.1 200 OK".toList, "Content-Type: text/plain".toList,
          "Content-Length: ".toList ++ itoa p.length] ++ crlfcrlf ++ p := by
    rw [hres]
    simp only [World.wire, List.flatten_cons, List.flatten_nil, List.append_nil, join,
      List.append_assoc]
    rfl
  have hparse := parse_response "HTTP/1.1 200 OK".toList
    ["Content-Type: text/plain".toList, "Content-Length: ".toList ++ itoa p.length] p
    (by
      intro x hx
      simp only [List.mem_cons, List.mem_singleton, List.not_mem_nil, or_false] at hx
      rcases hx with rfl | rfl | rfl
      · exact ⟨by decide, by decide⟩
      · exact ⟨by decide, by decide⟩
      · exact ⟨by simp, no_cr_append (by decide) (itoa_no_cr _)⟩)
  refine ⟨hres, ?_, ?_, ?_⟩
  · rw [hwire]; exact hparse.1
  · rw [hwire]; exact hparse.2
  · intro h; rw [h]; decide

/-- Witness for C5: `GET /echo/hello` with only a `Host` header. -/
theorem echo_plain_response_witness :
    processRequest sampleEnv ⟨[], []⟩ ["GET /echo/hello HTTP/1.1".toList, "Host: x".toList] []
      = (.returned,
          ⟨["HTTP/1.1 200 OK\r\nContent-Type: text/plain\r\nContent-Length: 5\r\n\r\nhello".toList],
            []⟩) :=
  (echo_plain_response sampleEnv [] "GET /echo/hello HTTP/1.1".toList ["Host: x".toList] []
    "HTTP/1.1".toList "hello".toList [("Host".toList, "x".toList)]
    (by decide) (by decide) (by decide) (Or.inl (by decide))).1

/-- C6: a `GET /echo/<p>` request whose `Accept-Encoding` value contains `gzip`
anywhere is answered with status `200 OK`, the header `Content-Encoding: gzip`,
a `Content-Length` that is the number of bytes of `gzip(p)`, and the body
`gzip(p)`, which decompresses to `p` (the compressor is a parameter with a
left-inverse decompressor). -/
theorem echo_gzip_response (env : Env) (gunzip : Str → Option Str)
    (files : List (Str × Str)) (requestLine : Str)
    (headers : List Str) (body version p v : Str) (hm : HeaderMap)
    (hline : split requestLine " ".toList = ["GET".toList, "/echo/".toList ++ p, version])
    (hhdr : parseHeaders headers [] = some hm)
    (hp : ∀ c, c ∈ p → c ≠ '/')
    (hae : hm.lookup "Accept-Encoding".toList = some v)
    (hv : "gzip".toList <:+: v)
    (hinv : ∀ s, gunzip (env.gzip s) = some s) :
    processRequest env ⟨[], files⟩ (requestLine :: headers) body
      = (.returned,
          ⟨["HTTP/1.1 200 OK\r\nContent-Encoding: gzip\r\n".toList
              ++ "Content-Type: text/plain\r\nContent-Length: ".toList
              ++ itoa (env.gzip p).length ++ "\r\n\r\n".toList ++ env.gzip p], files⟩) ∧
    responseLines (processRequest env ⟨[], files⟩ (requestLine :: headers) body).2.wire
      = ["HTTP/1.1 200 OK".toList, "Content-Encoding: gzip".toList,
          "Content-Type: text/plain".toList,
          "Content-Length: ".toList ++ itoa (env.gzip p).length] ∧
    responseBody (processRequest env ⟨[], files⟩ (requestLine :: headers) body).2.wire
      = env.gzip p ∧
    gunzip (responseBody (processRequest env ⟨[], files⟩ (requestLine :: headers) body).2.wire)
      = some p := by
  have hres : processRequest env ⟨[], files⟩ (requestLine :: headers) body
      = (.returned,
          ⟨["HTTP/1.1 200 OK\r\nContent-Encoding: gzip\r\n".toList
              ++ "Content-Type: text/plain\r\nContent-Length: ".toList
              ++ itoa (env.gzip p).length ++ "\r\n\r\n".toList ++ env.gzip p], files⟩) := by
    rw [processRequest_get env _ requestLine headers body _ version hm hline hhdr]
    simp only [handleGetRequest, split_echo_path p hp, handleEchoRequest,
      contains_gzip_eq_true hm v hae hv]
    rfl
  have hwire : (processRequest env ⟨[], files⟩ (requestLine :: headers) body).2.wire
      = join crlf ["HTTP/1.1 200 OK".toList, "Content-Encoding: gzip".toList,
          "Content-Type: text/plain".toList,
          "Content-Length: ".toList ++ itoa (env.gzip p).length] ++ crlfcrlf ++ env.gzip p := by
    rw [hres]
    simp only [World.wire, List.flatten_cons, List.flatten_nil, List.append_nil, join,
      List.append_assoc]
    rfl
  have hparse := parse_response "HTTP/1.1 200 OK".toList
    ["Content-Encoding: gzip".toList, "Content-Type: text/plain".toList,
      "Content-Length: ".toList ++ itoa (env.gzip p).length] (env.gzip p)
    (by
      intro x hx
      simp only [List.mem_cons, List.mem_singleton, List.not_mem_nil, or_false] at hx
      rcases hx with rfl | rfl | rfl | rfl
      · exact ⟨by decide, by decide⟩
      · exact ⟨by decide, by decide⟩
      · exact ⟨by decide, by decide⟩
      · exact ⟨by simp, no_cr_append (by decide) (itoa_no_cr _)⟩)
  refine ⟨hres, ?_, ?_, ?_⟩
  · rw [hwire]; exact hparse.1
  · rw [hwire]; exact hparse.2
  · rw [hwire, hparse.2]; exact hinv p

/-- Witness for C6: `GET /echo/hello` with `Accept-Encoding: br, gzip`, over the
toy compressor that puts `Z` in front. -/
theorem echo_gzip_response_witness :
    processRequest sampleEnv ⟨[], []⟩
        ["GET /echo/hello HTTP/1.1".toList, "Accept-Encoding: br, gzip".toList] []
      = (.returned,
          ⟨[("HTTP/1.1 200 OK\r\nContent-Encoding: gzip\r\nContent-Type: text/plain\r\n"
              ++ "Content-Length: 6\r\n\r\nZhello").toList], []⟩) :=
  (echo_gzip_response sampleEnv (fun s => s.tail?) [] "GET /echo/hello HTTP/1.1".toList
    ["Accept-Encoding: br, gzip".toList] [] "HTTP/1.1".toList "hello".toList "br, gzip".toList
    [("Accept-Encoding".toList, "br, gzip".toList)]
    (by decide) (by decide) (by decide) (by decide) ((contains_iff _ _).1 (by decide))
    (fun _ => rfl)).1

/-- C7: a `GET` request whose first path segment is `user-agent` is answered
`200 OK` with `Content-Type: text/plain` and, as body, exactly the value stored
under `User-Agent` in the parsed header map; the body is empty and the length
written is `0` when the map has no such key; and for the single header
`User-Agent: test-client/1.0` the body is exactly `test-client/1.0`. -/
theorem user_agent_response (env : Env) (files : List (Str × Str)) (requestLine : Str)
    (headers : List Str) (body version target : Str) (hm : HeaderMap)
    (hline : split requestLine " ".toList = ["GET".toList, target, version])
    (hhdr : parseHeaders headers [] = some hm)
    (hseg : (split (".".toList ++ target) "/".toList)[1]? = some "user-agent".toList) :
    processRequest env ⟨[], files⟩ (requestLine :: headers) body
      = (.returned,
          ⟨["HTTP/1.1 200 OK\r\nContent-Type: text/plain\r\nContent-Length: ".toList
              ++ itoa (hm.get "User-Agent".toList).length ++ "\r\n\r\n".toList,
            hm.get "User-Agent".toList], files⟩) ∧
    responseLines (processRequest env ⟨[], files⟩ (requestLine :: headers) body).2.wire
      = ["HTTP/1.1 200 OK".toList, "Content-Type: text/plain".toList,
          "Content-Length: ".toList ++ itoa (hm.get "User-Agent".toList).length] ∧
    responseBody (processRequest env ⟨[], files⟩ (requestLine :: headers) body).2.wire
      = hm.get "User-Agent".toList ∧
    (∀ v, hm.lookup "User-Agent".toList = some v → hm.get "User-Agent".toList = v) ∧
    (hm.lookup "User-Agent".toList = none →
      hm.get "User-Agent".toList = [] ∧
      itoa (hm.get "User-Agent".toList).length = "0".toList) ∧
    (headers = ["User-Agent: test-client/1.0".toList] →
      hm.get "User-Agent".toList = "test-client/1.0".toList) := by
  have hres : processRequest env ⟨[], files⟩ (requestLine :: headers) body
      = (.returned, writeResponse ⟨[], files⟩ "200 OK".toList "text/plain".toList
          (some (hm.get "User-Agent".toList))) := by
    rw [processRequest_get env _ requestLine headers body _ version hm hline hhdr]
    simp only [handleGetRequest, hseg]
    rfl
  have hparse := writeResponse_lines_body files "200 OK".toList "text/plain".toList
    (some (hm.get "User-Agent".toList)) (by decide) (by decide)
  refine ⟨?_, ?_, ?_, ?_, ?_, ?_⟩
  · rw [hres]; rfl
  · rw [hres]; exact hparse.1
  · rw [hres]; exact hparse.2
  · intro v hv; unfold HeaderMap.get; rw [hv]; rfl
  · intro hn
    have h0 : hm.get "User-Agent".toList = [] := by unfold HeaderMap.get; rw [hn]; rfl
    rw [h0]
    exact ⟨rfl, by decide⟩
  · intro hh
    rw [hh] at hhdr
    have : hm = [("User-Agent".toList, "test-client/1.0".toList)] := by
      have e : parseHeaders ["User-Agent: test-client/1.0".toList] []
          = some [("User-Agent".toList, "test-client/1.0".toList)] := by decide
      rw [e] at hhdr
      exact (Option.some.inj hhdr).symm
    rw [this]
    decide

/-- Witness for C7: `GET /user-agent` with `User-Agent: test-client/1.0`. -/
theorem user_agent_response_witness :
    processRequest sampleEnv ⟨[], []⟩
        ["GET /user-agent HTTP/1.1".toList, "User-Agent: test-client/1.0".toList] []
      = (.returned,
          ⟨["HTTP/1.1 200 OK\r\nContent-Type: text/plain\r\nContent-Length: 15\r\n\r\n".toList,
            "test-client/1.0".toList], []⟩) :=
  (user_agent_response sampleEnv [] "GET /user-agent HTTP/1.1".toList
    ["User-Agent: test-client/1.0".toList] [] "HTTP/1.1".toList "/user-agent".toList
    [("User-Agent".toList, "test-client/1.0".toList)]
    (by decide) (by decide) (by decide)).1

/-- C8: over the file store as a map from path to bytes, with a write that
succeeds: when a connection delivers `POST /files/f` with body `b` (`f` one path
segment, the whole request within the 1024 bytes of one read) and a later, fresh
connection delivers `GET /files/f`, the second response is `200 OK` with body
exactly `b` and a `Content-Length` that is the length of `b`. -/
theorem post_then_get_roundtrip (env : Env) (files : List (Str × Str))
    (postLine getLine : Str) (postHeaders getHeaders : List Str)
    (b getBody v1 v2 f base : Str) (hm1 hm2 : HeaderMap)
    (hline1 : split postLine " ".toList = ["POST".toList, "/files/".toList ++ f, v1])
    (hhdr1 : parseHeaders postHeaders [] = some hm1)
    (hline2 : split getLine " ".toList = ["GET".toList, "/files/".toList ++ f, v2])
    (hhdr2 : parseHeaders getHeaders [] = some hm2)
    (hwf1 : ∀ x, x ∈ postLine :: postHeaders → x ≠ [] ∧ ∀ c, c ∈ x → c ≠ '\r')
    (hwf2 : ∀ x, x ∈ getLine :: getHeaders → x ≠ [] ∧ ∀ c, c ∈ x → c ≠ '\r')
    (hfit1 : (requestBytes (postLine :: postHeaders) b).length ≤ 1024)
    (hfit2 : (requestBytes (getLine :: getHeaders) getBody).length ≤ 1024)
    (hf : ∀ c, c ∈ f → c ≠ '/')
    (hargs : env.args[2]? = some base)
    (hw : env.writable (base ++ f) = true) :
    (handleConnection env ⟨[], files⟩ (some (requestBytes (postLine :: postHeaders) b))).1
      = .returned ∧
    handleConnection env
        ⟨[], (handleConnection env ⟨[], files⟩
          (some (requestBytes (postLine :: postHeaders) b))).2.files⟩
        (some (requestBytes (getLine :: getHeaders) getBody))
      = (.returned,
          ⟨["HTTP/1.1 200 OK\r\nContent-Type: application/octet-stream\r\nContent-Length: ".toList
              ++ itoa b.length ++ "\r\n\r\n".toList, b],
            (handleConnection env ⟨[], files⟩
              (some (requestBytes (postLine :: postHeaders) b))).2.files⟩) ∧
    responseLines
        (handleConnection env
          ⟨[], (handleConnection env ⟨[], files⟩
            (some (requestBytes (postLine :: postHeaders) b))).2.files⟩
          (some (requestBytes (getLine :: getHeaders) getBody))).2.wire
      = ["HTTP/1.1 200 OK".toList, "Content-Type: application/octet-stream".toList,
          "Content-Length: ".toList ++ itoa b.length] ∧
    responseBody
        (handleConnection env
          ⟨[], (handleConnection env ⟨[], files⟩
            (some (requestBytes (postLine :: postHeaders) b))).2.files⟩
          (some (requestBytes (getLine :: getHeaders) getBody))).2.wire
      = b := by
  have hc1 : ∀ w, handleConnection env w (some (requestBytes (postLine :: postHeaders) b))
      = processRequest env w (postLine :: postHeaders) b :=
    fun w => handleConnection_of_request env w postLine postHeaders b hwf1 hfit1
  have hc2 : ∀ w, handleConnection env w (some (requestBytes (getLine :: getHeaders) getBody))
      = processRequest env w (getLine :: getHeaders) getBody :=
    fun w => handleConnection_of_request env w getLine getHeaders getBody hwf2 hfit2
  rw [hc1]
  simp only [hc2]
  have hpost : processRequest env ⟨[], files⟩ (postLine :: postHeaders) b
      = (.returned,
          connWrite (osWriteFile env (osCreate env ⟨[], files⟩ (base ++ f)) (base ++ f) b)
            "HTTP/1.1 201 Created\r\n\r\n".toList) := by
    rw [processRequest_post env _ postLine postHeaders b _ v1 hm1 hline1 hhdr1]
    exact handlePostRequest_files env _ f b base hf hargs
  have hread : ∀ conn : List Str, osReadFile
      ⟨conn, (processRequest env ⟨[], files⟩ (postLine :: postHeaders) b).2.files⟩ (base ++ f)
      = some b := by
    intro conn
    rw [hpost]
    have := osReadFile_after_write env ⟨[], files⟩ (base ++ f) b hw
    simpa only [osReadFile, connWrite] using this
  have hget : processRequest env
        ⟨[], (processRequest env ⟨[], files⟩ (postLine :: postHeaders) b).2.files⟩
        (getLine :: getHeaders) getBody
      = (.returned, writeResponse
          ⟨[], (processRequest env ⟨[], files⟩ (postLine :: postHeaders) b).2.files⟩
          "200 OK".toList "application/octet-stream".toList (some b)) := by
    rw [processRequest_get env _ getLine getHeaders getBody _ v2 hm2 hline2 hhdr2,
      handleGetRequest_files env _ f base hm2 hf hargs, hread []]
  have hparse := writeResponse_lines_body
    (processRequest env ⟨[], files⟩ (postLine :: postHeaders) b).2.files
    "200 OK".toList "application/octet-stream".toList (some b) (by decide) (by decide)
  refine ⟨?_, ?_, ?_, ?_⟩
  · rw [hpost]
  · rw [hget]; rfl
  · rw [hget]; exact hparse.1
  · rw [hget]; exact hparse.2

set_option maxRecDepth 20000 in
/-- Witness for C8: `POST /files/abc.txt` with body `hi`, then
`GET /files/abc.txt`, each as the bytes of a whole request. -/
theorem post_then_get_roundtrip_witness :
    handleConnection sampleEnv
        ⟨[], (handleConnection sampleEnv ⟨[], []⟩
          (some (requestBytes ["POST /files/abc.txt HTTP/1.1".toList, "Content-Length: 2".toList]
            "hi".toList))).2.files⟩
        (some (requestBytes ["GET /files/abc.txt HTTP/1.1".toList] []))
      = (.returned,
          ⟨[("HTTP/1.1 200 OK\r\nContent-Type: application/octet-stream\r\n"
              ++ "Content-Length: 2\r\n\r\n").toList, "hi".toList],
            [("/tmp/abc.txt".toList, "hi".toList)]⟩) :=
  (post_then_get_roundtrip sampleEnv [] "POST /files/abc.txt HTTP/1.1".toList
    "GET /files/abc.txt HTTP/1.1".toList ["Content-Length: 2".toList] [] "hi".toList []
    "HTTP/1.1".toList "HTTP/1.1".toList "abc.txt".toList "/tmp/".toList
    [("Content-Length".toList, "2".toList)] []
    (by decide) (by decide) (by decide) (by decide) (by decide) (by decide) (by decide)
    (by decide) (by decide) (by decide) (by decide)).2.1

/-- C9: a `GET /files/<name>` request for which reading `base + name` fails is
answered, with one write of exactly
`HTTP/1.1 404 Not Found\r\nContent-Type: application/octet-stream\r\nContent-Length: 0\r\n\r\n`
and no body byte after the blank line; the handler returns, it does not reject
the request. -/
theorem get_unreadable_file_404 (env : Env) (files : List (Str × Str)) (requestLine : Str)
    (headers : List Str) (body version name base : Str) (hm : HeaderMap)
    (hline : split requestLine " ".toList = ["GET".toList, "/files/".toList ++ name, version])
    (hhdr : parseHeaders headers [] = some hm)
    (hname : ∀ c, c ∈ name → c ≠ '/')
    (hargs : env.args[2]? = some base)
    (hread : osReadFile ⟨[], files⟩ (base ++ name) = none) :
    processRequest env ⟨[], files⟩ (requestLine :: headers) body
      = (.returned,
          ⟨[("HTTP/1.1 404 Not Found\r\nContent-Type: application/octet-stream\r\n"
              ++ "Content-Length: 0\r\n\r\n").toList], files⟩) ∧
    responseLines (processRequest env ⟨[], files⟩ (requestLine :: headers) body).2.wire
      = ["HTTP/1.1 404 Not Found".toList, "Content-Type: application/octet-stream".toList,
          "Content-Length: 0".toList] ∧
    responseBody (processRequest env ⟨[], files⟩ (requestLine :: headers) body).2.wire = [] := by
  have hres : processRequest env ⟨[], files⟩ (requestLine :: headers) body
      = (.returned, writeResponse ⟨[], files⟩ "404 Not Found".toList
          "application/octet-stream".toList none) := by
    rw [processRequest_get env _ requestLine headers body _ version hm hline hhdr,
      handleGetRequest_files env _ name base hm hname hargs, hread]
  have hparse := writeResponse_lines_body files "404 Not Found".toList
    "application/octet-stream".toList none (by decide) (by decide)
  refine ⟨?_, ?_, ?_⟩
  · rw [hres]; rfl
  · rw [hres, hparse.1]; rfl
  · rw [hres]; exact hparse.2

/-- Witness for C9: `GET /files/missing.txt` over an empty file store. -/
theorem get_unreadable_file_404_witness :
    processRequest sampleEnv ⟨[], []⟩ ["GET /files/missing.txt HTTP/1.1".toList] []
      = (.returned,
          ⟨[("HTTP/1.1 404 Not Found\r\nContent-Type: application/octet-stream\r\n"
              ++ "Content-Length: 0\r\n\r\n").toList], []⟩) :=
  (get_unreadable_file_404 sampleEnv [] "GET /files/missing.txt HTTP/1.1".toList [] []
    "HTTP/1.1".toList "missing.txt".toList "/tmp/".toList []
    (by decide) (by decide) (by decide) (by decide) (by decide)).1

/-- C10: a `POST /files/<name>` request is answered with the status line
`HTTP/1.1 201 Created` whatever the file-store write does: the bytes written to
the connection are `HTTP/1.1 201 Created\r\n\r\n` both when the write succeeds
(the file then holds the body) and when it fails (the file store is then
unchanged). -/
theorem post_file_always_201 (env : Env) (files : List (Str × Str)) (requestLine : Str)
    (headers : List Str) (body version name base : Str) (hm : HeaderMap)
    (hline : split requestLine " ".toList = ["POST".toList, "/files/".toList ++ name, version])
    (hhdr : parseHeaders headers [] = some hm)
    (hname : ∀ c, c ∈ name → c ≠ '/')
    (hargs : env.args[2]? = some base) :
    (processRequest env ⟨[], files⟩ (requestLine :: headers) body).1 = .returned ∧
    (processRequest env ⟨[], files⟩ (requestLine :: headers) body).2.conn
      = ["HTTP/1.1 201 Created\r\n\r\n".toList] ∧
    responseLines (processRequest env ⟨[], files⟩ (requestLine :: headers) body).2.wire
      = ["HTTP/1.1 201 Created".toList] ∧
    (env.writable (base ++ name) = true →
      osReadFile (processRequest env ⟨[], files⟩ (requestLine :: headers) body).2 (base ++ name)
        = some body) ∧
    (env.writable (base ++ name) = false →
      (processRequest env ⟨[], files⟩ (requestLine :: headers) body).2.files = files) := by
  have hres : processRequest env ⟨[], files⟩ (requestLine :: headers) body
      = (.returned,
          connWrite (osWriteFile env (osCreate env ⟨[], files⟩ (base ++ name)) (base ++ name) body)
            "HTTP/1.1 201 Created\r\n\r\n".toList) := by
    rw [processRequest_post env _ requestLine headers body _ version hm hline hhdr]
    exact handlePostRequest_files env _ name body base hname hargs
  have hconn : (processRequest env ⟨[], files⟩ (requestLine :: headers) body).2.conn
      = ["HTTP/1.1 201 Created\r\n\r\n".toList] := by
    rw [hres]
    by_cases hw : env.writable (base ++ name) = true
    · simp only [connWrite, osWriteFile, osCreate, hw, if_true, List.nil_append]
    · simp only [connWrite, osWriteFile, osCreate, hw, Bool.false_eq_true, if_false,
        List.nil_append]
  refine ⟨?_, hconn, ?_, ?_, ?_⟩
  · rw [hres]
  · unfold World.wire
    rw [hconn]
    decide
  · intro hw
    rw [hres]
    have := osReadFile_after_write env ⟨[], files⟩ (base ++ name) body hw
    simpa only [osReadFile, connWrite] using this
  · intro hw
    rw [hres]
    simp only [connWrite, osWriteFile, osCreate, hw, Bool.false_eq_true, if_false]

/-- Witness for C10: `POST /files/a` against a file store that refuses every
write. -/
theorem post_file_always_201_witness :
    (processRequest readOnlyEnv ⟨[], []⟩ ["POST /files/a HTTP/1.1".toList] "hi".toList).2.conn
        = ["HTTP/1.1 201 Created\r\n\r\n".toList] ∧
    (processRequest readOnlyEnv ⟨[], []⟩ ["POST /files/a HTTP/1.1".toList] "hi".toList).2.files
        = [] :=
  ⟨(post_file_always_201 readOnlyEnv [] "POST /files/a HTTP/1.1".toList [] "hi".toList
      "HTTP/1.1".toList "a".toList "/tmp/".toList [] (by decide) (by decide) (by decide)
      (by decide)).2.1,
    (post_file_always_201 readOnlyEnv [] "POST /files/a HTTP/1.1".toList [] "hi".toList
      "HTTP/1.1".toList "a".toList "/tmp/".toList [] (by decide) (by decide) (by decide)
      (by decide)).2.2.2.2 (by decide)⟩

/-- C3, as the code has it: `parseHeaders` accepts a header line exactly when
`Split` on `": "` yields two parts, that is when the line contains `": "` and
the text after its first occurrence contains no further `": "`; the name
recorded is the text before that occurrence and the value the text after it. A
line without `": "` is rejected, and so is `X: a: b`. -/
theorem parseHeaders_accepts_iff_one_separator (part : Str) (rest : List Str)
    (hm : HeaderMap) :
    parseHeaders (part :: rest) hm
      = (match index part ": ".toList with
        | none => none
        | some k =>
          if contains (part.drop (k + 2)) ": ".toList then none
          else parseHeaders rest (hm.set (part.take k) (part.drop (k + 2)))) ∧
    ((parseHeaders [part] hm).isSome ↔
      ∃ k, index part ": ".toList = some k ∧ ¬ ": ".toList <:+: part.drop (k + 2)) ∧
    (¬ ": ".toList <:+: part → parseHeaders (part :: rest) hm = none) ∧
    parseHeaders ("X: a: b".toList :: rest) hm = none := by
  refine ⟨parseHeaders_cons part rest hm, ?_, ?_, ?_⟩
  · rw [parseHeaders_cons part [] hm]
    cases hk : index part ": ".toList with
    | none => simp
    | some k =>
      cases hc : contains (part.drop (k + 2)) ": ".toList with
      | true =>
        have hi := (contains_iff _ _).1 hc
        simp only [hc, if_true, Option.isSome_none, Bool.false_eq_true, Option.some.injEq,
          false_iff, not_exists, not_and, not_not]
        intro j hj
        rw [← hj]
        exact hi
      | false =>
        have hi := (contains_eq_false_iff _ _).1 hc
        simp only [hc, Bool.false_eq_true, if_false, parseHeaders, Option.isSome_some,
          Option.some.injEq, true_iff]
        exact ⟨k, rfl, hi⟩
  · intro hni
    rw [parseHeaders_cons, index_none_of_no_occurrence hni]
  · rw [parseHeaders_cons]
    rfl

/-- C3, as stated, fails: the line `X: a: b` contains the separator `": "`, yet
`parseHeaders` rejects it instead of recording name `X` and value `a: b`. -/
theorem parseHeaders_rejects_second_separator :
    ": ".toList <:+: "X: a: b".toList ∧
    parseHeaders ["X: a: b".toList] [] = none ∧
    parseHeaders ["X: a: b".toList] [] ≠ some [("X".toList, "a: b".toList)] :=
  ⟨(contains_iff _ _).1 (by decide), by decide, by decide⟩

/-- C17: for a length `n` within the buffer, `parseMessage` gets past the index
`parts[1]` exactly on buffers that contain the blank line: `parts[1]` is in
range if and only if `buf[:n]` contains `"\r\n\r\n"`, and `parseMessage` returns
header lines and a body if and only if it does; without the blank line it panics
on the index `parts[1]` and returns no header line, and `handleConnection` ends
in that panic with the world untouched. A length beyond the buffer never gets
that far: the slice `buf[:n]` itself panics. -/
theorem parseMessage_total_iff_blank_line (buf : Str) (n : Nat) :
    (((splitN (buf.take n) crlfcrlf 2)[1]?).isSome ↔ crlfcrlf <:+: buf.take n) ∧
    (n ≤ buf.length →
      ((∃ headerParts body, parseMessage buf n = .parsed headerParts body) ↔
        crlfcrlf <:+: buf.take n)) ∧
    (n ≤ buf.length → ¬ crlfcrlf <:+: buf.take n →
      parseMessage buf n = .indexOutOfRange) ∧
    (buf.length < n → parseMessage buf n = .sliceOutOfRange) ∧
    (∀ (env : Env) (w : World) (data : Str), ¬ crlfcrlf <:+: data.take 1024 →
      handleConnection env w (some data) = (.panicked, w)) := by
  refine ⟨?_, ?_, ?_, parseMessage_of_length_lt buf n, ?_⟩
  · rw [splitN_two crlfcrlf_ne_nil]
    cases h : index (buf.take n) crlfcrlf with
    | none =>
      have hn : ¬ crlfcrlf <:+: buf.take n := by
        intro hi
        obtain ⟨m, hm⟩ := index_some_of_occurrence hi
        rw [h] at hm
        cases hm
      simp only [hn, iff_false]
      intro h0
      cases h0
    | some m =>
      have hy : crlfcrlf <:+: buf.take n := (contains_iff _ _).1 (by simp [contains, h])
      simp only [hy, iff_true]
      rfl
  · intro hle
    rw [parseMessage_eq buf n hle]
    cases h : index (buf.take n) crlfcrlf with
    | none =>
      have hn : ¬ crlfcrlf <:+: buf.take n := by
        intro hi
        obtain ⟨m, hm⟩ := index_some_of_occurrence hi
        rw [h] at hm
        cases hm
      simp only [hn, iff_false]
      rintro ⟨headerParts, body, h0⟩
      cases h0
    | some m =>
      have hy : crlfcrlf <:+: buf.take n := (contains_iff _ _).1 (by simp [contains, h])
      simp only [hy, iff_true]
      exact ⟨_, _, rfl⟩
  · intro hle hn
    rw [parseMessage_eq buf n hle, index_none_of_no_occurrence hn]
  · intro env w data hn
    rw [handleConnection_eq, index_none_of_no_occurrence hn]

/-- Witness for C17: a buffer of eight bytes without a blank line, read to its
full length, panics on `parts[1]`; read to nine bytes it panics on the slice. -/
theorem parseMessage_total_iff_blank_line_witness :
    parseMessage "GET /\r\n\r".toList 8 = .indexOutOfRange ∧
    parseMessage "GET /\r\n\r".toList 9 = .sliceOutOfRange :=
  ⟨(parseMessage_total_iff_blank_line "GET /\r\n\r".toList 8).2.2.1 (by decide)
      (fun h => absurd ((contains_iff _ _).2 h) (by decide)),
    (parseMessage_total_iff_blank_line "GET /\r\n\r".toList 9).2.2.2.1 (by decide)⟩

/-- C14: a request whose request line has three tokens and whose header lines
are all accepted, with a method token that is neither `GET` nor `POST` (compared
byte for byte, so `get` is neither), is rejected at the method switch with the
message `Invalid method`, and nothing is written: the world is as before. -/
theorem invalid_method_rejected (env : Env) (w : World) (requestLine : Str)
    (headers : List Str) (body method target version : Str) (hm : HeaderMap)
    (hline : split requestLine " ".toList = [method, target, version])
    (hhdr : parseHeaders headers [] = some hm)
    (hget : method ≠ "GET".toList) (hpost : method ≠ "POST".toList) :
    processRequest env w (requestLine :: headers) body = (.exited .method, w) ∧
    (processRequest env w (requestLine :: headers) body).2.conn = w.conn ∧
    ExitSite.message .method = "Invalid method" := by
  have hres : processRequest env w (requestLine :: headers) body = (.exited .method, w) := by
    rw [processRequest_of_tokens env w requestLine headers body method target version hline,
      hhdr]
    dsimp only
    rw [if_neg hget, if_neg hpost]
  exact ⟨hres, by rw [hres], rfl⟩

/-- Witness for C14: the lower-case method `get` is not `GET`. -/
theorem invalid_method_rejected_witness :
    processRequest sampleEnv emptyWorld ["get /echo/a HTTP/1.1".toList, "Host: x".toList] []
      = (.exited .method, emptyWorld) :=
  (invalid_method_rejected sampleEnv emptyWorld "get /echo/a HTTP/1.1".toList
    ["Host: x".toList] [] "get".toList "/echo/a".toList "HTTP/1.1".toList
    [("Host".toList, "x".toList)] (by decide) (by decide) (by decide) (by decide)).1

/-- C19: when the handling of an input ends in a rejection (a call of
`logErrorAndExit`), the world is what it was before: nothing has been written to
the connection, so the output of a fresh connection is empty, and the file store
is unchanged. The four rejections of a request each leave the world untouched:
a request line without three tokens, a header line that is not accepted, a
method other than `GET` and `POST`, and an echo path without three segments. -/
theorem rejection_is_atomic (env : Env) (w : World) (incoming : Option Str) (site : ExitSite)
    (h : (handleConnection env w incoming).1 = .exited site) :
    (handleConnection env w incoming).2 = w ∧
    (w.conn = [] → (handleConnection env w incoming).2.wire = []) ∧
    (handleConnection env w incoming).2.files = w.files ∧
    (∀ (requestLine : Str) (headers : List Str) (body : Str),
      (split requestLine " ".toList).length ≠ 3 →
      processRequest env w (requestLine :: headers) body = (.exited .requestLine, w)) ∧
    (∀ (requestLine : Str) (headers : List Str) (body : Str),
      (split requestLine " ".toList).length = 3 → parseHeaders headers [] = none →
      processRequest env w (requestLine :: headers) body = (.exited .header, w)) ∧
    (∀ (requestLine : Str) (headers : List Str) (body method target version : Str)
      (hm : HeaderMap),
      split requestLine " ".toList = [method, target, version] →
      parseHeaders headers [] = some hm →
      method ≠ "GET".toList → method ≠ "POST".toList →
      processRequest env w (requestLine :: headers) body = (.exited .method, w)) ∧
    (∀ (requestLine : Str) (headers : List Str) (body target version : Str) (hm : HeaderMap),
      split requestLine " ".toList = ["GET".toList, target, version] →
      parseHeaders headers [] = some hm →
      (split (".".toList ++ target) "/".toList)[1]? = some "echo".toList →
      (split (".".toList ++ target) "/".toList).length ≠ 3 →
      processRequest env w (requestLine :: headers) body = (.exited .echoParts, w)) := by
  have hw : (handleConnection env w incoming).2 = w :=
    handleConnection_world env w incoming (by rw [h]; exact fun h0 => by cases h0)
  refine ⟨hw, ?_, by rw [hw], ?_, ?_, ?_, ?_⟩
  · intro hc
    rw [hw]
    unfold World.wire
    rw [hc]
    rfl
  · intro requestLine headers body hl
    exact processRequest_of_bad_line env w requestLine headers body hl
  · intro requestLine headers body h3 hp
    obtain ⟨method, target, version, hsp⟩ := List.length_eq_three.1 h3
    rw [processRequest_of_tokens env w requestLine headers body method target version hsp, hp]
  · intro requestLine headers body method target version hm hsp hp hg hpo
    rw [processRequest_of_tokens env w requestLine headers body method target version hsp, hp]
    dsimp only
    rw [if_neg hg, if_neg hpo]
  · intro requestLine headers body target version hm hsp hp hseg hlen
    rw [processRequest_get env w requestLine headers body target version hm hsp hp,
      handleGetRequest_echo env w _ hm hseg, handleEchoRequest_of_bad_length env w _ hm hlen]

set_option maxRecDepth 20000 in
/-- Witness for C19: `GET /echo` has two path segments and is rejected by the
echo handler; nothing was written and no file was touched. -/
theorem rejection_is_atomic_witness :
    (handleConnection sampleEnv emptyWorld
      (some "GET /echo HTTP/1.1\r\nHost: x\r\n\r\n".toList)).2 = emptyWorld :=
  (rejection_is_atomic sampleEnv emptyWorld
    (some "GET /echo HTTP/1.1\r\nHost: x\r\n\r\n".toList) .echoParts (by decide)).1

/-- C11, as stated, fails: when `os.Stat` fails with an error other than "does
not exist", the existence check has found no entry, yet the request is answered
`200 OK` and not `404 Not Found`. -/
theorem stat_error_is_answered_200 :
    statErrorEnv.stat "./x".toList ≠ .ok ∧
    processRequest statErrorEnv emptyWorld ["GET /x HTTP/1.1".toList] []
      = (.returned,
          ⟨["HTTP/1.1 200 OK\r\nContent-Type: text/plain\r\nContent-Length: 0\r\n\r\n".toList],
            []⟩) := by
  decide

/-- C11, as the code has it: a `GET` request whose first path segment is none of
`user-agent`, `echo`, `files` is answered with an empty body and
`Content-Length: 0`; the status is `404 Not Found` exactly when `os.Stat` on
`"." + path` fails with a "does not exist" error, and `200 OK` otherwise, that
is when `os.Stat` finds an entry and also when it fails for another reason. -/
theorem default_route_response (env : Env) (files : List (Str × Str)) (requestLine : Str)
    (headers : List Str) (body version target seg : Str) (hm : HeaderMap)
    (hline : split requestLine " ".toList = ["GET".toList, target, version])
    (hhdr : parseHeaders headers [] = some hm)
    (hseg : (split (".".toList ++ target) "/".toList)[1]? = some seg)
    (h1 : seg ≠ "user-agent".toList) (h2 : seg ≠ "echo".toList) (h3 : seg ≠ "files".toList) :
    (env.stat (".".toList ++ target) ≠ .notExist →
      processRequest env ⟨[], files⟩ (requestLine :: headers) body
        = (.returned,
            ⟨["HTTP/1.1 200 OK\r\nContent-Type: text/plain\r\nContent-Length: 0\r\n\r\n".toList],
              files⟩)) ∧
    (env.stat (".".toList ++ target) = .notExist →
      processRequest env ⟨[], files⟩ (requestLine :: headers) body
        = (.returned,
            ⟨[("HTTP/1.1 404 Not Found\r\nContent-Type: text/plain\r\n"
                ++ "Content-Length: 0\r\n\r\n").toList], files⟩)) ∧
    (processRequest env ⟨[], files⟩ (requestLine :: headers) body).1 = .returned ∧
    responseBody (processRequest env ⟨[], files⟩ (requestLine :: headers) body).2.wire = [] ∧
    (responseLines (processRequest env ⟨[], files⟩ (requestLine :: headers) body).2.wire
        = ["HTTP/1.1 200 OK".toList, "Content-Type: text/plain".toList,
            "Content-Length: 0".toList] ↔
      env.stat (".".toList ++ target) ≠ .notExist) ∧
    (responseLines (processRequest env ⟨[], files⟩ (requestLine :: headers) body).2.wire
        = ["HTTP/1.1 404 Not Found".toList, "Content-Type: text/plain".toList,
            "Content-Length: 0".toList] ↔
      env.stat (".".toList ++ target) = .notExist) := by
  have hres := processRequest_get env ⟨[], files⟩ requestLine headers body target version hm
    hline hhdr
  rw [handleGetRequest_default env _ _ seg hm hseg h1 h2 h3] at hres
  have hp200 := writeResponse_lines_body files "200 OK".toList "text/plain".toList none
    (by decide) (by decide)
  have hp404 := writeResponse_lines_body files "404 Not Found".toList "text/plain".toList none
    (by decide) (by decide)
  have hne : ("HTTP/1.1 200 OK".toList : Str) ≠ "HTTP/1.1 404 Not Found".toList := by decide
  by_cases hs : env.stat (".".toList ++ target) = .notExist
  · have he : ¬ existsPath env (".".toList ++ target) = true := by
      rw [existsPath_eq]; exact fun h => h hs
    rw [if_neg he] at hres
    refine ⟨fun h => absurd hs h, fun _ => by rw [hres]; rfl, by rw [hres], ?_, ?_, ?_⟩
    · rw [hres]; exact hp404.2
    · rw [hres, hp404.1]
      constructor
      · intro h
        exact absurd (List.cons.inj h).1.symm hne
      · intro h
        exact absurd hs h
    · rw [hres, hp404.1]
      exact ⟨fun _ => hs, fun _ => rfl⟩
  · have he : existsPath env (".".toList ++ target) = true := (existsPath_eq _ _).2 hs
    rw [if_pos he] at hres
    refine ⟨fun _ => by rw [hres]; rfl, fun h => absurd h hs, by rw [hres], ?_, ?_, ?_⟩
    · rw [hres]; exact hp200.2
    · rw [hres, hp200.1]
      exact ⟨fun _ => hs, fun _ => rfl⟩
    · rw [hres, hp200.1]
      constructor
      · intro h
        exact absurd (List.cons.inj h).1 hne
      · intro h
        exact absurd h hs

/-- Witness for C11: `GET /` where `os.Stat` reports that `./` does not exist. -/
theorem default_route_response_witness :
    processRequest sampleEnv ⟨[], []⟩ ["GET / HTTP/1.1".toList] []
      = (.returned,
          ⟨[("HTTP/1.1 404 Not Found\r\nContent-Type: text/plain\r\n"
              ++ "Content-Length: 0\r\n\r\n").toList], []⟩) :=
  (default_route_response sampleEnv [] "GET / HTTP/1.1".toList [] [] "HTTP/1.1".toList
    "/".toList [] [] (by decide) (by decide) (by decide) (by decide) (by decide)
    (by decide)).2.1 (by decide)

set_option maxRecDepth 20000 in
/-- C12 fails on the code at `POST /echo/x`: the request is parsed, and
`handlePostRequest`, whose switch has the one case `files` and no default,
returns with nothing written to the connection and without a call of
`logErrorAndExit`: the request gets neither a response nor a rejection. -/
theorem post_other_route_writes_nothing :
    handleConnection sampleEnv emptyWorld (some "POST /echo/x HTTP/1.1\r\n\r\n".toList)
      = (.returned, emptyWorld) ∧
    (handleConnection sampleEnv emptyWorld
      (some "POST /echo/x HTTP/1.1\r\n\r\n".toList)).2.wire = [] := by
  decide

/-- C15: a `GET` request whose first path segment is `echo` is answered if and
only if its path (with the leading `.`) splits on `/` into exactly three
segments; otherwise it is rejected by the echo handler with nothing written.
When it is answered, the body is the third segment as it stands in the path
(compressed when `gzip` is accepted): no percent-decoding takes place, so
`/echo/a%20b` echoes `a%20b`. `GET /echo` has two segments and is rejected. -/
theorem echo_answered_iff_three_segments (env : Env) (files : List (Str × Str))
    (requestLine : Str) (headers : List Str) (body version target : Str) (hm : HeaderMap)
    (hline : split requestLine " ".toList = ["GET".toList, target, version])
    (hhdr : parseHeaders headers [] = some hm)
    (hseg : (split (".".toList ++ target) "/".toList)[1]? = some "echo".toList) :
    ((processRequest env ⟨[], files⟩ (requestLine :: headers) body).1 = .returned ↔
      (split (".".toList ++ target) "/".toList).length = 3) ∧
    ((split (".".toList ++ target) "/".toList).length ≠ 3 →
      processRequest env ⟨[], files⟩ (requestLine :: headers) body
        = (.exited .echoParts, ⟨[], files⟩)) ∧
    (∀ a b p, split (".".toList ++ target) "/".toList = [a, b, p] →
      (contains (hm.get "Accept-Encoding".toList) "gzip".toList = false →
        responseBody (processRequest env ⟨[], files⟩ (requestLine :: headers) body).2.wire
          = p) ∧
      (contains (hm.get "Accept-Encoding".toList) "gzip".toList = true →
        responseBody (processRequest env ⟨[], files⟩ (requestLine :: headers) body).2.wire
          = env.gzip p)) ∧
    (split "./echo".toList "/".toList).length = 2 ∧
    split "./echo/a%20b".toList "/".toList = [".".toList, "echo".toList, "a%20b".toList] := by
  have hres : processRequest env ⟨[], files⟩ (requestLine :: headers) body
      = handleEchoRequest env ⟨[], files⟩ (split (".".toList ++ target) "/".toList) hm := by
    rw [processRequest_get env _ requestLine headers body target version hm hline hhdr,
      handleGetRequest_echo env _ _ hm hseg]
  have hrej : (split (".".toList ++ target) "/".toList).length ≠ 3 →
      processRequest env ⟨[], files⟩ (requestLine :: headers) body
        = (.exited .echoParts, ⟨[], files⟩) := by
    intro hlen
    rw [hres, handleEchoRequest_of_bad_length env _ _ hm hlen]
  have hans : ∀ a b p, split (".".toList ++ target) "/".toList = [a, b, p] →
      (processRequest env ⟨[], files⟩ (requestLine :: headers) body).1 = .returned ∧
      (contains (hm.get "Accept-Encoding".toList) "gzip".toList = false →
        responseBody (processRequest env ⟨[], files⟩ (requestLine :: headers) body).2.wire
          = p) ∧
      (contains (hm.get "Accept-Encoding".toList) "gzip".toList = true →
        responseBody (processRequest env ⟨[], files⟩ (requestLine :: headers) body).2.wire
          = env.gzip p) := by
    intro a b p hsp
    rw [hres, hsp]
    cases hg : contains (hm.get "Accept-Encoding".toList) "gzip".toList with
    | false =>
      rw [handleEchoRequest_plain env files a b p hm hg]
      exact ⟨rfl, fun _ => (echo_plain_parse files p).2, fun h => by cases h⟩
    | true =>
      rw [handleEchoRequest_gzip env files a b p hm hg]
      exact ⟨rfl, fun h => (by cases h), fun _ => (echo_gzip_parse files (env.gzip p)).2⟩
  refine ⟨?_, hrej, fun a b p hsp => (hans a b p hsp).2, by decide, by decide⟩
  constructor
  · intro hret
    by_contra hlen
    rw [hrej hlen] at hret
    cases hret
  · intro h3
    obtain ⟨a, b, p, hsp⟩ := List.length_eq_three.1 h3
    exact (hans a b p hsp).1

/-- Witness for C15: `GET /echo/a%20b` is answered with the body `a%20b`. -/
theorem echo_answered_iff_three_segments_witness :
    responseBody (processRequest sampleEnv ⟨[], []⟩
      ["GET /echo/a%20b HTTP/1.1".toList, "Host: x".toList] []).2.wire = "a%20b".toList :=
  ((echo_answered_iff_three_segments sampleEnv [] "GET /echo/a%20b HTTP/1.1".toList
    ["Host: x".toList] [] "HTTP/1.1".toList "/echo/a%20b".toList
    [("Host".toList, "x".toList)] (by decide) (by decide) (by decide)).2.2.1
    ".".toList "echo".toList "a%20b".toList (by decide)).1 (by decide)

/-- C16, as stated, fails on the gzip echo response: its header lines are the
status line, then `Content-Encoding: gzip`, then `Content-Type`, then
`Content-Length`, so `Content-Encoding` comes before `Content-Type` and not
after it. -/
theorem gzip_echo_puts_encoding_before_type :
    responseLines (processRequest sampleEnv emptyWorld
        ["GET /echo/hello HTTP/1.1".toList, "Accept-Encoding: gzip".toList] []).2.wire
      = ["HTTP/1.1 200 OK".toList, "Content-Encoding: gzip".toList,
          "Content-Type: text/plain".toList, "Content-Length: 6".toList] := by
  decide

/-- C16, as the code has it: the response to an answered `GET` request is its
header lines joined with `"\r\n"`, the blank line, and the body. The header
lines are the status line, `Content-Type` and `Content-Length` in this order,
except on the echo route with `gzip` accepted, where they are the status line,
`Content-Encoding: gzip`, `Content-Type` and `Content-Length` in this order.
`Content-Length` is always the last header line and counts the body. The
response to `POST /files/<name>` has the status line as its only line. -/
theorem response_header_order (env : Env) (files : List (Str × Str))
    (requestLine : Str) (headers : List Str) (body version : Str) (hm : HeaderMap)
    (hhdr : parseHeaders headers [] = some hm) :
    (∀ target, split requestLine " ".toList = ["GET".toList, target, version] →
      (processRequest env ⟨[], files⟩ (requestLine :: headers) body).1 = .returned →
      join crlf (responseLines
            (processRequest env ⟨[], files⟩ (requestLine :: headers) body).2.wire)
          ++ crlfcrlf
          ++ responseBody (processRequest env ⟨[], files⟩ (requestLine :: headers) body).2.wire
        = (processRequest env ⟨[], files⟩ (requestLine :: headers) body).2.wire ∧
      ((((split (".".toList ++ target) "/".toList)[1]? = some "echo".toList ∧
            contains (hm.get "Accept-Encoding".toList) "gzip".toList = true) ∧
          responseLines (processRequest env ⟨[], files⟩ (requestLine :: headers) body).2.wire
            = ["HTTP/1.1 200 OK".toList, "Content-Encoding: gzip".toList,
                "Content-Type: text/plain".toList,
                "Content-Length: ".toList ++ itoa
                  (responseBody (processRequest env ⟨[], files⟩
                    (requestLine :: headers) body).2.wire).length]) ∨
        (¬ ((split (".".toList ++ target) "/".toList)[1]? = some "echo".toList ∧
            contains (hm.get "Accept-Encoding".toList) "gzip".toList = true) ∧
          ∃ st ct,
            responseLines (processRequest env ⟨[], files⟩ (requestLine :: headers) body).2.wire
              = ["HTTP/1.1 ".toList ++ st, "Content-Type: ".toList ++ ct,
                  "Content-Length: ".toList ++ itoa
                    (responseBody (processRequest env ⟨[], files⟩
                      (requestLine :: headers) body).2.wire).length]))) ∧
    (∀ name base,
      split requestLine " ".toList = ["POST".toList, "/files/".toList ++ name, version] →
      (∀ c, c ∈ name → c ≠ '/') → env.args[2]? = some base →
      responseLines (processRequest env ⟨[], files⟩ (requestLine :: headers) body).2.wire
        = ["HTTP/1.1 201 Created".toList] ∧
      responseBody (processRequest env ⟨[], files⟩ (requestLine :: headers) body).2.wire
        = []) := by
  constructor
  · intro target hline hret
    rw [processRequest_get env _ requestLine headers body target version hm hline hhdr]
      at hret ⊢
    have hl := handleGetRequest_lines env files _ hm hret
    refine ⟨?_, hl⟩
    apply join_responseLines
    apply occurrence_of_responseLines
    rcases hl with ⟨_, h⟩ | ⟨_, st, ct, h⟩
    · rw [h]; exact List.cons_ne_nil _ _
    · rw [h]; exact List.cons_ne_nil _ _
  · intro name base hline hname hargs
    obtain ⟨_, hwire⟩ := processRequest_post_files_wire env files requestLine headers body
      version name base hm hline hhdr hname hargs
    rw [hwire]
    exact ⟨by decide, by decide⟩

/-- Witness for C16: the header lines of `GET /user-agent`, an uncompressed
response. -/
theorem response_header_order_witness :
    join crlf (responseLines (processRequest sampleEnv ⟨[], []⟩
          ["GET /user-agent HTTP/1.1".toList, "User-Agent: a".toList] []).2.wire)
        ++ crlfcrlf
        ++ responseBody (processRequest sampleEnv ⟨[], []⟩
          ["GET /user-agent HTTP/1.1".toList, "User-Agent: a".toList] []).2.wire
      = (processRequest sampleEnv ⟨[], []⟩
          ["GET /user-agent HTTP/1.1".toList, "User-Agent: a".toList] []).2.wire :=
  ((response_header_order sampleEnv [] "GET /user-agent HTTP/1.1".toList
    ["User-Agent: a".toList] [] "HTTP/1.1".toList [("User-Agent".toList, "a".toList)]
    (by decide)).1 "/user-agent".toList (by decide) (by decide)).1

/-- C18: for a `GET` or `POST` request whose path begins with `/` (so that the
handlers see `"." + "/" + rest`), the access `pathParts[1]` is always in range,
and `pathParts[2]` is in range if and only if the path contains a second `/`.
The files routes, the only ones that read `pathParts[2]` without a length check,
meet it out of range exactly when the path is `/files`; so, with the base
directory present on the command line, either handler panics if and only if the
path is `/files`. -/
theorem segment_access_in_range (env : Env) (w : World) (rest base body : Str)
    (hm : HeaderMap) (hargs : env.args[2]? = some base) :
    ((split (".".toList ++ ("/".toList ++ rest)) "/".toList)[1]?).isSome ∧
    (((split (".".toList ++ ("/".toList ++ rest)) "/".toList)[2]?).isSome ↔ '/' ∈ rest) ∧
    (((split (".".toList ++ ("/".toList ++ rest)) "/".toList)[1]? = some "files".toList ∧
        (split (".".toList ++ ("/".toList ++ rest)) "/".toList)[2]? = none) ↔
      "/".toList ++ rest = "/files".toList) ∧
    ((handleGetRequest env w (".".toList ++ ("/".toList ++ rest)) hm).1 = .panicked ↔
      "/".toList ++ rest = "/files".toList) ∧
    ((handlePostRequest env w (".".toList ++ ("/".toList ++ rest)) body).1 = .panicked ↔
      "/".toList ++ rest = "/files".toList) := by
  have h1 : ((split (".".toList ++ ("/".toList ++ rest)) "/".toList)[1]?).isSome := by
    rw [split_dot_slash]
    simp only [List.getElem?_cons_succ]
    exact split_head_isSome rest _
  obtain ⟨seg, hseg⟩ := Option.isSome_iff_exists.1 h1
  have hiff := files_without_second_segment_iff rest seg hseg
  refine ⟨h1, ?_, ?_, ?_, ?_⟩
  · rw [split_dot_slash]
    simp only [List.getElem?_cons_succ]
    exact split_second_isSome_iff rest
  · rw [← hiff, hseg]
    constructor
    · rintro ⟨h, h2⟩
      exact ⟨(Option.some.inj h), h2⟩
    · rintro ⟨h, h2⟩
      exact ⟨by rw [h], h2⟩
  · rw [handleGetRequest_panicked_iff env w _ seg base hm hargs hseg]
    exact hiff
  · rw [handlePostRequest_panicked_iff env w _ seg base body hargs hseg]
    exact hiff

/-- Witness for C18: `GET /files` panics on `pathParts[2]`. -/
theorem segment_access_in_range_witness :
    (handleGetRequest sampleEnv emptyWorld (".".toList ++ ("/".toList ++ "files".toList))
      []).1 = .panicked :=
  (segment_access_in_range sampleEnv emptyWorld "files".toList "/tmp/".toList [] []
    (by decide)).2.2.2.1.2 (by decide)

/-- C20: on the files routes of `GET` and `POST` the file read or written is
`base ++ s`, where `s` is the segment of the path after `files`: `POST` creates
and writes that file and leaves every other path of the store as it was, `GET`
answers from the read of that file. The segment `s` contains no `/`, and the
segments after it play no part: `/files/a/more` is handled exactly as
`/files/a`. -/
theorem files_route_uses_second_segment (env : Env) (w : World)
    (target s base body : Str) (hm : HeaderMap)
    (hargs : env.args[2]? = some base)
    (hseg1 : (split (".".toList ++ target) "/".toList)[1]? = some "files".toList)
    (hseg2 : (split (".".toList ++ target) "/".toList)[2]? = some s) :
    handlePostRequest env w (".".toList ++ target) body
      = (.returned,
          connWrite (osWriteFile env (osCreate env w (base ++ s)) (base ++ s) body)
            "HTTP/1.1 201 Created\r\n\r\n".toList) ∧
    (∀ p, p ≠ base ++ s →
      osReadFile (handlePostRequest env w (".".toList ++ target) body).2 p = osReadFile w p) ∧
    handleGetRequest env w (".".toList ++ target) hm
      = (match osReadFile w (base ++ s) with
        | none =>
          (.returned, writeResponse w "404 Not Found".toList
            "application/octet-stream".toList none)
        | some data =>
          (.returned, writeResponse w "200 OK".toList
            "application/octet-stream".toList (some data))) ∧
    '/' ∉ s ∧
    (∀ a more : Str, '/' ∉ a →
      handleGetRequest env w (".".toList ++ ("/files/".toList ++ (a ++ ("/".toList ++ more)))) hm
        = handleGetRequest env w (".".toList ++ ("/files/".toList ++ a)) hm ∧
      handlePostRequest env w
          (".".toList ++ ("/files/".toList ++ (a ++ ("/".toList ++ more)))) body
        = handlePostRequest env w (".".toList ++ ("/files/".toList ++ a)) body) := by
  have hpost := handlePostRequest_files_segment env w _ s base body hargs hseg1 hseg2
  refine ⟨hpost, ?_, handleGetRequest_files_segment env w _ s base hm hargs hseg1 hseg2,
    ?_, ?_⟩
  · intro p hp
    rw [hpost]
    have := osReadFile_other_path env w (base ++ s) body p hp
    simpa only [osReadFile, connWrite] using this
  · intro hin
    have hmem : s ∈ split (".".toList ++ target) "/".toList :=
      List.getElem?_mem hseg2
    exact no_separator_in_piece slash_ne_nil hmem ((slash_occurs_iff s).2 hin)
  · intro a more ha
    have hna : ∀ c, c ∈ a → c ≠ '/' := fun c hc hcs => ha (hcs ▸ hc)
    have hs1 : split (".".toList ++ ("/files/".toList ++ (a ++ ("/".toList ++ more))))
        "/".toList = ".".toList :: "files".toList :: a :: split more "/".toList := by
      rw [split_files_path_more]
      have h := split_append_of_no_head '/' [] a more hna
      exact congrArg _ (congrArg _ h)
    have hs2 : split (".".toList ++ ("/files/".toList ++ a)) "/".toList
        = [".".toList, "files".toList, a] := split_files_path a hna
    have g1 : (split (".".toList ++ ("/files/".toList ++ (a ++ ("/".toList ++ more))))
        "/".toList)[1]? = some "files".toList := by
      rw [hs1]; rfl
    have g2 : (split (".".toList ++ ("/files/".toList ++ (a ++ ("/".toList ++ more))))
        "/".toList)[2]? = some a := by
      rw [hs1]
      simp only [List.getElem?_cons_succ, List.getElem?_cons_zero]
    have g3 : (split (".".toList ++ ("/files/".toList ++ a)) "/".toList)[1]?
        = some "files".toList := by
      rw [hs2]; rfl
    have g4 : (split (".".toList ++ ("/files/".toList ++ a)) "/".toList)[2]? = some a := by
      rw [hs2]; rfl
    constructor
    · rw [handleGetRequest_files_segment env w _ a base hm hargs g1 g2,
        handleGetRequest_files_segment env w _ a base hm hargs g3 g4]
    · rw [handlePostRequest_files_segment env w _ a base body hargs g1 g2,
        handlePostRequest_files_segment env w _ a base body hargs g3 g4]

/-- Witness for C20: `POST /files/a/b` writes the file `/tmp/a`. -/
theorem files_route_uses_second_segment_witness :
    handlePostRequest sampleEnv emptyWorld (".".toList ++ "/files/a/b".toList) "hi".toList
      = (.returned,
          ⟨["HTTP/1.1 201 Created\r\n\r\n".toList], [("/tmp/a".toList, "hi".toList)]⟩) :=
  (files_route_uses_second_segment sampleEnv emptyWorld "/files/a/b".toList "a".toList
    "/tmp/".toList "hi".toList [] (by decide) (by decide) (by decide)).1

/-- C13: when `parseHeaders` accepts a sequence of header lines, each line is a
name, the separator `": "` and a value, and the resulting map sends every name
that occurs to the value of its last occurrence in the sequence and holds no
other key (a lookup of any other key finds nothing, so `m[k]` is the empty
string). Names are compared byte for byte: `User-Agent` and `user-agent` are
two keys, each with its own value. -/
theorem parseHeaders_last_value_wins (headers : List Str) (hm : HeaderMap)
    (h : parseHeaders headers [] = some hm) :
    ∃ pairs : List (Str × Str),
      List.Forall₂
        (fun line p => split line ": ".toList = [p.1, p.2] ∧ line = p.1 ++ ": ".toList ++ p.2)
        headers pairs ∧
      (∀ k, hm.lookup k = lastValue pairs k) ∧
      (∀ k, (hm.lookup k).isSome ↔ k ∈ pairs.map Prod.fst) ∧
      (∀ k, hm.get k = (lastValue pairs k).getD []) ∧
      (parseHeaders ["User-Agent: a".toList, "user-agent: b".toList] []).map
          (fun m => (m.lookup "User-Agent".toList, m.lookup "user-agent".toList,
            m.lookup "USER-AGENT".toList))
        = some (some "a".toList, some "b".toList, none) := by
  obtain ⟨pairs, hf, hl⟩ := parseHeaders_lookup headers [] hm h
  have hl2 : ∀ k, hm.lookup k = lastValue pairs k := by
    intro k
    rw [hl k]
    cases lastValue pairs k <;> rfl
  refine ⟨pairs, ?_, hl2, ?_, ?_, by decide⟩
  · refine List.Forall₂.imp ?_ hf
    intro line p hsp
    refine ⟨hsp, ?_⟩
    have hj := join_split line ": ".toList
    rw [hsp] at hj
    simp only [join] at hj
    exact hj.symm
  · intro k
    rw [hl2 k]
    exact lastValue_isSome_iff pairs k
  · intro k
    unfold HeaderMap.get
    rw [hl2 k]

/-- Witness for C13: of two `X` lines the second one wins. -/
theorem parseHeaders_last_value_wins_witness :
    ∃ pairs : List (Str × Str),
      List.Forall₂
        (fun line p => split line ": ".toList = [p.1, p.2] ∧ line = p.1 ++ ": ".toList ++ p.2)
        ["X: 1".toList, "Y: 3".toList, "X: 2".toList] pairs ∧
      (∀ k, List.lookup k [("X".toList, "2".toList), ("Y".toList, "3".toList)]
        = lastValue pairs k) :=
  let ⟨pairs, h1, h2, _⟩ := parseHeaders_last_value_wins
    ["X: 1".toList, "Y: 3".toList, "X: 2".toList]
    [("X".toList, "2".toList), ("Y".toList, "3".toList)] (by decide)
  ⟨pairs, h1, h2⟩

end HttpServer
